import Mathlib

/-!
A shallow embedding of the settings resolution engine (the `create` /
`resolve` / `initialize` / `metadataToData` family of functions of the
settings module) together with proofs about it.

Modelling conventions:

* JavaScript values are modelled by `Val`; plain objects are insertion-ordered
  association lists of own properties, mirroring JS object key order.
* The metadata tree is itself a `Val`, exactly as in the source where metadata
  nodes are duck-typed plain objects (`\x7b type, from, value, initial \x7d`,
  `\x7b fields \x7d`).
* Caller-supplied hook functions (initializers, shorthands, fixups, validators,
  type mappers) are total Lean functions; the source's wrapping of exceptions
  thrown by hooks has no counterpart because Lean functions cannot throw.
  The fixup notification channel (`onFixup` / logging) is a pure side channel
  that never affects data or metadata and is elided.
* In-place mutation is modelled by explicit state passing.  Mutation through
  an alias (the source passes `data[k]` to a callee which mutates it) is
  modelled by `writeBack`: the parent sees the callee's result when it holds
  the property; when the property is absent the callee received `undefined`
  and any attempted write already raised `jsTypeError`.
* `Lo.cloneDeep` is the identity on pure values.
* The mutual recursion of the source (`resolve` <-> `resolveRecord` <->
  `initialize`) descends strictly into the specifier tree, so it is modelled
  by a tower of `Level`s indexed by specifier depth; `Err.fuel` marks an
  exhausted depth budget and is unreachable from the top-level wrappers,
  which supply a sufficient budget.
-/

/-- JavaScript runtime values as used by the settings engine: primitives and
plain objects (insertion-ordered association lists of own properties). -/
inductive Val where
  | vundef
  | vnull
  | vbool (b : Bool)
  | vnum (n : Int)
  | vstr (s : String)
  | vobj (entries : List (String × Val))

mutual

/-- Boolean (structural) equality on values. -/
def Val.beq : Val → Val → Bool
  | .vundef, .vundef => true
  | .vnull, .vnull => true
  | .vbool a, .vbool b => a == b
  | .vnum a, .vnum b => a == b
  | .vstr a, .vstr b => a == b
  | .vobj a, .vobj b => ventriesBeq a b
  | _, _ => false

def ventriesBeq : List (String × Val) → List (String × Val) → Bool
  | [], [] => true
  | (k, v) :: rest, (k', v') :: rest' => k == k' && Val.beq v v' && ventriesBeq rest rest'
  | _, _ => false

end

mutual

theorem Val.beq_refl : ∀ a : Val, Val.beq a a = true
  | .vundef => rfl
  | .vnull => rfl
  | .vbool b => by simp [Val.beq]
  | .vnum n => by simp [Val.beq]
  | .vstr s => by simp [Val.beq]
  | .vobj l => by simp [Val.beq, ventriesBeq_refl l]

theorem ventriesBeq_refl : ∀ l : List (String × Val), ventriesBeq l l = true
  | [] => rfl
  | (k, v) :: rest => by simp [ventriesBeq, Val.beq_refl v, ventriesBeq_refl rest]

end

/-- Two values whose structural equality test computes to `false` are
distinct. -/
theorem Val.ne_of_beq_false {a b : Val} (h : Val.beq a b = false) : a ≠ b := by
  intro heq
  subst heq
  rw [Val.beq_refl] at h
  cases h

/-- `Lo.isPlainObject`. -/
def isPlainObject : Val → Bool
  | .vobj _ => true
  | _ => false

/-- JavaScript truthiness. -/
def truthy : Val → Bool
  | .vundef => false
  | .vnull => false
  | .vbool b => b
  | .vnum n => decide (n ≠ 0)
  | .vstr s => decide (s ≠ "")
  | .vobj _ => true

/-- Nullish test (`undefined` or `null`), as used by the `??` operator. -/
def isNullish : Val → Bool
  | .vundef => true
  | .vnull => true
  | _ => false

/-- The JavaScript nullish-coalescing operator `a ?? b`. -/
def nullish (a b : Val) : Val :=
  if isNullish a then b else a

/-- Property read `o[k]`: `undefined` for absent keys and non-object targets. -/
def getProp : Val → String → Val
  | .vobj l, k =>
    match l.find? (fun e => e.1 = k) with
    | some e => e.2
    | none => .vundef
  | _, _ => Val.vundef

/-- Whether an object value has the given own property. -/
def hasProp : Val → String → Bool
  | .vobj l, k => (l.find? (fun e => e.1 = k)).isSome
  | _, _ => false

/-- Replace the value of a key in place, or append the key at the end:
JavaScript property-assignment key ordering. -/
def setEntry : List (String × Val) → String → Val → List (String × Val)
  | [], k, v => [(k, v)]
  | (k', v') :: rest, k, v =>
    if k' = k then (k, v) :: rest else (k', v') :: setEntry rest k v

/-- Own entries of a value; non-objects have none (as iterated by
`Lo.forOwn` / `Lo.entries`). -/
def ownEntries : Val → List (String × Val)
  | .vobj l => l
  | _ => []

/-- The errors thrown by the engine.  Each constructor corresponds to one
`throw` site of the source; `jsTypeError` stands for the TypeError the
JavaScript runtime raises when a property is assigned on `undefined` (or a
non-function is called), and `fuel` is the depth-budget artifact of the
embedding, unreachable from the top-level wrappers. -/
inductive Err where
  | unknownSetting (name : String)
  | notANamespace (name : String) (value : Val)
  | unknownSpecifierKind (name : String)
  | shorthandNonObject (path : String) (value : Val)
  | recordNonObject
  | invalidInitializer (name : String)
  | validationFailed (name : String) (value : Val) (messages : List String)
  | jsTypeError
  | fuel

/-- Property assignment `o[k] := v`; assigning on a non-object raises a
TypeError (ES modules are strict). -/
def setProp : Val → String → Val → Except Err Val
  | .vobj l, k, v => .ok (.vobj (setEntry l k v))
  | _, _, _ => .error .jsTypeError

/-- Mutation through an alias: the source hands `parent[k]` to a callee that
mutates it in place.  If the parent holds the property it sees the callee's
result; if not, the callee received `undefined` and any attempted write
already raised `jsTypeError`, so the parent is unchanged. -/
def writeBack (parent : Val) (k : String) (child : Val) : Val :=
  match parent with
  | .vobj l => if (l.find? (fun e => e.1 = k)).isSome then .vobj (setEntry l k child) else parent
  | _ => parent

/-- `MetadataValueFromType` of the source: provenance of a leaf value. -/
inductive MetadataValueFromType where
  | set
  | initial

/-- The string stored in a metadata node's `from` property. -/
def MetadataValueFromType.toVal : MetadataValueFromType → Val
  | .set => .vstr "set"
  | .initial => .vstr "initial"

/-- A leaf initializer as configured in a spec: either a function (the valid
configuration) or a static value (a configuration error caught by
`runInitializer`). -/
inductive Initializer where
  | func (f : Unit → Val)
  | static (v : Val)

/-- The non-null result of a fixup: the corrected value plus diagnostic
messages. -/
structure FixupOut where
  value : Val
  messages : List String

/-- A setting specifier.  The source duck-types specifiers as plain objects
with optional members; this single-constructor inductive mirrors that shape
(the presence of `fields` makes it act as a namespace, the presence of
`entryFields` as a record, otherwise as a leaf).  A validator returns the
violation messages or nothing, modelling `\x7b messages \x7d | undefined`. -/
inductive Specifier where
  | mk (initial : Option Initializer)
       (shorthand : Option (Val → Val))
       (fixup : Option (Val → Option FixupOut))
       (validate : Option (Val → Option (List String)))
       (mapType : Option (Val → Val))
       (fields : Option (List (String × Specifier)))
       (entryFields : Option (List (String × Specifier)))

def Specifier.initial : Specifier → Option Initializer
  | .mk i _ _ _ _ _ _ => i

def Specifier.shorthand : Specifier → Option (Val → Val)
  | .mk _ s _ _ _ _ _ => s

def Specifier.fixup : Specifier → Option (Val → Option FixupOut)
  | .mk _ _ f _ _ _ _ => f

def Specifier.validate : Specifier → Option (Val → Option (List String))
  | .mk _ _ _ v _ _ _ => v

def Specifier.mapType : Specifier → Option (Val → Val)
  | .mk _ _ _ _ m _ _ => m

def Specifier.fields : Specifier → Option (List (String × Specifier))
  | .mk _ _ _ _ _ f _ => f

def Specifier.entryFields : Specifier → Option (List (String × Specifier))
  | .mk _ _ _ _ _ _ e => e

mutual

/-- Nesting depth of a specifier (used to size the interpreter's level
tower). -/
def Specifier.depth : Specifier → Nat
  | .mk _ _ _ _ _ fs efs => 1 + Nat.max (optDepth fs) (optDepth efs)

def optDepth : Option (List (String × Specifier)) → Nat
  | none => 0
  | some l => listDepth l

def listDepth : List (String × Specifier) → Nat
  | [] => 0
  | (_, s) :: rest => Nat.max s.depth (listDepth rest)

end

/-- `fields[inputFieldName]`: look a specifier up in a spec tree level. -/
def lookupField : List (String × Specifier) → String → Option Specifier
  | [], _ => none
  | (n, s) :: rest, name => if n = name then some s else lookupField rest name

/-- `runInitializer` of the source: no initializer falls back to already
seeded data (`data[name] ?? undefined`), a function initializer runs, and a
static value is a configuration error. -/
def runInitializer (specInitial : Option Initializer) (inputFieldName : String) (data : Val) :
    Except Err Val :=
  match specInitial with
  | none => .ok (nullish (getProp data inputFieldName) .vundef)
  | some (.func f) => .ok (f ())
  | some (.static _) => .error (.invalidInitializer inputFieldName)

/-- `runTypeMapper` of the source (hook exceptions are not modelled). -/
def runTypeMapper (typeMapper : Val → Val) (inputFieldValue : Val) : Val :=
  typeMapper inputFieldValue

/-- `initMetadataField` of the source. -/
def initMetadataField (value : Val) : Val :=
  .vobj [("type", .vstr "leaf"), ("from", .vstr "initial"), ("value", value), ("initial", value)]

/-- `initMetadataRecord` of the source; `Lo.cloneDeep` is the identity on
pure values. -/
def initMetadataRecord (value : Val) : Val :=
  .vobj [("type", .vstr "record"), ("from", .vstr "initial"), ("value", value), ("initial", value)]

/-- The `Lo.mapValues` call of `doInitialize` seeding namespace metadata from
a namespace initializer's object. -/
def seedFieldMetadata : Val → Val
  | .vobj l =>
    .vobj (l.map fun e =>
      (e.1, Val.vobj [("value", e.2), ("from", .vstr "initial"), ("initial", e.2)]))
  | _ => .vobj []

/-- One level of the interpreter tower: the two mutually recursive entry
points of the source. -/
structure Level where
  resolve : MetadataValueFromType → List (String × Specifier) → Val → Val → Val →
    Except Err (Val × Val)
  doInitialize : List (String × Specifier) → Val → Val → Except Err (Val × Val)

/-- The leaf section of `resolve` ("Resolve Leaf"): run fixups, then
validators, then type mappers, then commit into data and metadata. -/
def resolveLeaf (metadataFrom : MetadataValueFromType) (specifier : Specifier)
    (inputFieldName : String) (inputFieldValue : Val) (data metadata : Val) :
    Except Err (Val × Val) := do
  let resolvedValue :=
    match specifier.fixup with
    | some fixup =>
      match fixup inputFieldValue with
      | some maybeFixedup => maybeFixedup.value
      | none => inputFieldValue
    | none => inputFieldValue
  let maybeViolation :=
    match specifier.validate with
    | some validate => validate resolvedValue
    | none => none
  match maybeViolation with
  | some messages => .error (.validationFailed inputFieldName resolvedValue messages)
  | none =>
    let resolvedValue :=
      match specifier.mapType with
      | some mapType => runTypeMapper mapType resolvedValue
      | none => resolvedValue
    do
      let data' ← setProp data inputFieldName resolvedValue
      let node := getProp metadata inputFieldName
      let node ← setProp node "value" resolvedValue
      let node ← setProp node "from" metadataFrom.toVal
      let node ←
        match metadataFrom with
        | .initial => setProp node "initial" resolvedValue
        | .set => .ok node
      .ok (data', writeBack metadata inputFieldName node)

/-- `resolveNamespace` of the source: reject a non-object for a namespace
without shorthand, expand a shorthand, then resolve the longhand against the
namespace's fields and the metadata node's `fields`. -/
def resolveNamespace (prev : Level) (metadataFrom : MetadataValueFromType)
    (specifier : Specifier) (inputFieldValue : Val) (path : String) (data metadata : Val) :
    Except Err (Val × Val) :=
  let isValueObject := isPlainObject inputFieldValue
  if !isValueObject && specifier.fields.isSome && specifier.shorthand.isNone then
    .error (.shorthandNonObject path inputFieldValue)
  else
    let longhandValue :=
      match specifier.shorthand with
      | some shorthand => if !isValueObject then shorthand inputFieldValue else inputFieldValue
      | none => inputFieldValue
    match specifier.fields with
    | some nsFields => do
      let (d', mdf') ← prev.resolve metadataFrom nsFields longhandValue data
        (getProp metadata "fields")
      .ok (d', writeBack metadata "fields" mdf')
    | none =>
      -- Unreachable from `resolveField`.  The source would iterate the
      -- longhand against an undefined spec: a TypeError on the first key,
      -- nothing at all when the longhand has no keys.
      match ownEntries longhandValue with
      | [] => .ok (data, metadata)
      | _ :: _ => .error .jsTypeError

/-- `resolveRecord` of the source, taking the record specifier's
`entryFields`: reject non-objects, then per input entry initialize a missing
entry from `entryFields` and resolve the entry value into it. -/
def resolveRecord (prev : Level) (metadataFrom : MetadataValueFromType)
    (entryFields : List (String × Specifier)) (inputFieldValue : Val) (data metadata : Val) :
    Except Err (Val × Val) :=
  if !(isPlainObject inputFieldValue) then
    .error .recordNonObject
  else
    (ownEntries inputFieldValue).foldlM
      (fun (acc : Val × Val) entry => do
        let (data, metadata) := acc
        let (key, inputEntryValue) := entry
        let (data, metadata) ←
          if !(truthy (getProp data key)) then do
            let (d0, m0) ← prev.doInitialize entryFields (.vobj []) (.vobj [])
            let data ← setProp data key d0
            let mdValue ← setProp (getProp metadata "value") key m0
            .ok (data, writeBack metadata "value" mdValue)
          else .ok (data, metadata)
        let (d', m') ← prev.resolve metadataFrom entryFields inputEntryValue
          (getProp data key) (getProp (getProp metadata "value") key)
        let data := writeBack data key d'
        let mdValue := writeBack (getProp metadata "value") key m'
        .ok (data, writeBack metadata "value" mdValue))
      (data, metadata)

/-- The body of `resolve`'s `Lo.forOwn` callback: dispatch one input field to
the unknown-setting / not-a-namespace guards, then to namespace, record or
leaf resolution. -/
def resolveField (prev : Level) (metadataFrom : MetadataValueFromType)
    (fields : List (String × Specifier)) (inputFieldName : String) (inputFieldValue : Val)
    (data metadata : Val) : Except Err (Val × Val) :=
  match lookupField fields inputFieldName with
  | none => .error (.unknownSetting inputFieldName)
  | some specifier =>
    let isValueObject := isPlainObject inputFieldValue
    if isValueObject && specifier.fields.isNone && specifier.entryFields.isNone then
      .error (.notANamespace inputFieldName inputFieldValue)
    else if isValueObject && specifier.entryFields.isNone && specifier.fields.isNone then
      .error (.unknownSpecifierKind inputFieldName)
    else
      match specifier.fields with
      | some _ => do
        let (d', md') ← resolveNamespace prev metadataFrom specifier inputFieldValue
          inputFieldName (getProp data inputFieldName) (getProp metadata inputFieldName)
        .ok (writeBack data inputFieldName d', writeBack metadata inputFieldName md')
      | none =>
        match specifier.entryFields with
        | some entryFields => do
          let (d', md') ← resolveRecord prev metadataFrom entryFields inputFieldValue
            (getProp data inputFieldName) (getProp metadata inputFieldName)
          .ok (writeBack data inputFieldName d', writeBack metadata inputFieldName md')
        | none =>
          resolveLeaf metadataFrom specifier inputFieldName inputFieldValue data metadata

/-- `resolve` of the source at one interpreter level: fold the input's own
entries through `resolveField`, mutating data and metadata. -/
def resolveAux (prev : Level) (metadataFrom : MetadataValueFromType)
    (fields : List (String × Specifier)) (input data metadata : Val) :
    Except Err (Val × Val) :=
  (ownEntries input).foldlM
    (fun (acc : Val × Val) entry =>
      resolveField prev metadataFrom fields entry.1 entry.2 acc.1 acc.2)
    (data, metadata)

/-- The body of `doInitialize`'s reduce callback: initialize one spec entry
(namespace with optional seed, record with seed entries resolved as
`from = initial` changes, or leaf whose initializer output passes through the
type mapper only). -/
def doInitializeField (prev : Level) (acc : Val × Val) (field : String × Specifier) :
    Except Err (Val × Val) := do
      let (data, metadata) := acc
      let (inputFieldName, specifier) := field
      match specifier.fields with
      | some nsFields => do
        -- initialize input namespace
        let initializedNamespace ←
          match specifier.initial with
          | none => .ok (Val.vobj [])
          | some (.func f) => .ok (nullish (f ()) (.vobj []))
          | some (.static _) => .error Err.jsTypeError
        let dataBase := nullish (getProp data inputFieldName) initializedNamespace
        let data ← setProp data inputFieldName dataBase
        let metadataNode := nullish (getProp metadata inputFieldName)
          (.vobj [("fields", seedFieldMetadata initializedNamespace)])
        let metadata ← setProp metadata inputFieldName metadataNode
        let (d', mdf') ← prev.doInitialize nsFields dataBase (getProp metadataNode "fields")
        let metadataNode := writeBack metadataNode "fields" mdf'
        .ok (writeBack data inputFieldName d', writeBack metadata inputFieldName metadataNode)
      | none =>
        match specifier.entryFields with
        | some entryFields => do
          -- initialize input record: run the record initializer, then treat
          -- each seed entry as a change with `from = initial` on a freshly
          -- initialized entry
          let initialRecord ←
            match specifier.initial with
            | some _ => runInitializer specifier.initial inputFieldName data
            | none => .ok (Val.vobj [])
          let seeded ← (ownEntries initialRecord).foldlM
            (fun (acc2 : Val × Val) entry => do
              let (accData, accMetadata) := acc2
              let (k, v) := entry
              let (d0, m0) ← prev.doInitialize entryFields (.vobj []) (.vobj [])
              let (d1, m1) ← prev.resolve .initial entryFields v d0 m0
              let accData ← setProp accData k d1
              let accMetadata ← setProp accMetadata k m1
              .ok (accData, accMetadata))
            (Val.vobj [], Val.vobj [])
          let data ← setProp data inputFieldName seeded.1
          let metadata ← setProp metadata inputFieldName
            (nullish (getProp metadata inputFieldName) (initMetadataRecord seeded.2))
          .ok (data, metadata)
        | none => do
          -- initialize input field
          let value ← runInitializer specifier.initial inputFieldName data
          let value :=
            match specifier.mapType with
            | some mapType => runTypeMapper mapType value
            | none => value
          let data ← setProp data inputFieldName value
          let metadata ← setProp metadata inputFieldName (initMetadataField value)
          .ok (data, metadata)

/-- `doInitialize` of the source at one interpreter level: reduce over the
spec's entries through `doInitializeField`. -/
def doInitializeAux (prev : Level) (fields : List (String × Specifier)) (data metadata : Val) :
    Except Err (Val × Val) :=
  fields.foldlM (doInitializeField prev) (data, metadata)

/-- The interpreter tower: level `n + 1` handles spec trees of depth at most
`n + 1` by delegating strictly shallower trees to level `n`. -/
def levels : Nat → Level
  | 0 => ⟨fun _ _ _ _ _ => .error .fuel, fun _ _ _ => .error .fuel⟩
  | n + 1 => ⟨resolveAux (levels n), doInitializeAux (levels n)⟩

/-- `resolve` of the source (top-level wrapper with a sufficient depth
budget). -/
def resolve (metadataFrom : MetadataValueFromType) (fields : List (String × Specifier))
    (input data metadata : Val) : Except Err (Val × Val) :=
  (levels (listDepth fields + 1)).resolve metadataFrom fields input data metadata

/-- `doInitialize` of the source (top-level wrapper). -/
def doInitialize (fields : List (String × Specifier)) (data metadata : Val) :
    Except Err (Val × Val) :=
  (levels (listDepth fields + 1)).doInitialize fields data metadata

/-- The `initialize` entry point of the source (renamed: `initialize` is a
Lean keyword). -/
def initializeSpec (fields : List (String × Specifier)) : Except Err (Val × Val) :=
  doInitialize fields (.vobj []) (.vobj [])

/-- `metadataToData` with an explicit recursion budget (the recursion of the
source descends strictly into the metadata value). -/
def metadataToDataAux : Nat → Val → Val
  | 0, _ => .vundef
  | n + 1, metadata =>
    match metadata with
    | .vobj l =>
      .vobj (l.map fun e =>
        (e.1,
          if truthy (getProp e.2 "fields") then metadataToDataAux n (getProp e.2 "fields")
          else getProp e.2 "initial"))
    | _ => .vobj []

mutual

/-- Nesting depth of a value (used to size `metadataToData`'s budget). -/
def Val.depth : Val → Nat
  | .vobj l => 1 + ventriesDepth l
  | _ => 0

def ventriesDepth : List (String × Val) → Nat
  | [] => 0
  | (_, v) :: rest => Nat.max v.depth (ventriesDepth rest)

end

/-- `metadataToData` of the source: project a metadata tree to a data tree by
recursing through `fields` and otherwise taking `initial`. -/
def metadataToData (metadata : Val) : Val :=
  metadataToDataAux (metadata.depth + 1) metadata

/-- The state owned by a manager: its `data` and `metadata` trees. -/
structure ManagerState where
  data : Val
  metadata : Val

/-- `create` of the source: initialize data and metadata from the spec
(development-mode spec validation is environment-dependent and not
modelled). -/
def create (fields : List (String × Specifier)) : Except Err ManagerState :=
  (initializeSpec fields).map fun p => ⟨p.1, p.2⟩

/-- `change` of the source: resolve the input with `from = set`. -/
def change (fields : List (String × Specifier)) (input : Val) (st : ManagerState) :
    Except Err ManagerState :=
  (resolve .set fields input st.data st.metadata).map fun p => ⟨p.1, p.2⟩

/-- `reset` of the source: re-run initialization wholesale. -/
def reset (fields : List (String × Specifier)) : Except Err ManagerState :=
  create fields

/-- `original` of the source: the manager's lazily-computed original is never
cached (the `state.original` slot is never written), so every call projects
the live metadata. -/
def original (st : ManagerState) : Val :=
  metadataToData st.metadata

/-- A sequence of `change` calls, applied left to right. -/
def changes (fields : List (String × Specifier)) : List Val → ManagerState →
    Except Err ManagerState
  | [], st => .ok st
  | input :: rest, st => do changes fields rest (← change fields input st)

/-! ### Basic lemmas about the value model -/

theorem setProp_vobj (l : List (String × Val)) (k : String) (v : Val) :
    setProp (.vobj l) k v = .ok (.vobj (setEntry l k v)) := rfl

theorem find?_setEntry_self (l : List (String × Val)) (k : String) (v : Val) :
    (setEntry l k v).find? (fun e => e.1 = k) = some (k, v) := by
  induction l with
  | nil => simp [setEntry]
  | cons hd tl ih =>
    obtain ⟨k', v'⟩ := hd
    by_cases h : k' = k
    · simp [setEntry, h]
    · simp [setEntry, h, List.find?_cons, ih]

theorem find?_setEntry_ne (l : List (String × Val)) (k k' : String) (v : Val) (h : k' ≠ k) :
    (setEntry l k v).find? (fun e => e.1 = k') = l.find? (fun e => e.1 = k') := by
  induction l with
  | nil => simp [setEntry, List.find?_cons, Ne.symm h]
  | cons hd tl ih =>
    obtain ⟨k'', v''⟩ := hd
    by_cases hk : k'' = k
    · subst hk
      simp [setEntry, List.find?_cons, Ne.symm h]
    · simp [setEntry, hk, List.find?_cons, ih]

theorem getProp_setEntry_self (l : List (String × Val)) (k : String) (v : Val) :
    getProp (.vobj (setEntry l k v)) k = v := by
  simp [getProp, find?_setEntry_self]

theorem getProp_setEntry_ne (l : List (String × Val)) (k k' : String) (v : Val) (h : k' ≠ k) :
    getProp (.vobj (setEntry l k v)) k' = getProp (.vobj l) k' := by
  simp [getProp, find?_setEntry_ne l k k' v h]

theorem hasProp_setEntry_self (l : List (String × Val)) (k : String) (v : Val) :
    hasProp (.vobj (setEntry l k v)) k = true := by
  simp [hasProp, find?_setEntry_self]

theorem hasProp_setEntry_ne (l : List (String × Val)) (k k' : String) (v : Val) (h : k' ≠ k) :
    hasProp (.vobj (setEntry l k v)) k' = hasProp (.vobj l) k' := by
  simp [hasProp, find?_setEntry_ne l k k' v h]

theorem find?_cons_pair_ne (tl : List (String × Val)) (k k' : String) (v' : Val)
    (hk : k' ≠ k) :
    ((k', v') :: tl).find? (fun e => e.1 = k) = tl.find? (fun e => e.1 = k) := by
  rw [List.find?_cons_of_neg]
  simp [hk]

theorem setEntry_getProp_self (l : List (String × Val)) (k : String)
    (h : hasProp (.vobj l) k = true) : setEntry l k (getProp (.vobj l) k) = l := by
  induction l with
  | nil => simp [hasProp] at h
  | cons hd tl ih =>
    obtain ⟨k', v'⟩ := hd
    by_cases hk : k' = k
    · subst hk
      simp [setEntry, getProp, List.find?_cons]
    · have h' : hasProp (.vobj tl) k = true := by
        have : ((k', v') :: tl).find? (fun e => e.1 = k) = tl.find? (fun e => e.1 = k) :=
          find?_cons_pair_ne tl k k' v' hk
        show (tl.find? (fun e => e.1 = k)).isSome = true
        rw [← this]
        exact h
      have hg : getProp (.vobj ((k', v') :: tl)) k = getProp (.vobj tl) k := by
        show (match ((k', v') :: tl).find? (fun e => e.1 = k) with
          | some e => e.2 | none => Val.vundef) = _
        rw [find?_cons_pair_ne tl k k' v' hk]
        rfl
      rw [hg]
      simp [setEntry, hk, ih h']

theorem writeBack_of_hasProp (l : List (String × Val)) (k : String) (c : Val)
    (h : hasProp (.vobj l) k = true) : writeBack (.vobj l) k c = .vobj (setEntry l k c) := by
  have h' : (l.find? (fun e => e.1 = k)).isSome = true := h
  show (if (l.find? (fun e => e.1 = k)).isSome then Val.vobj (setEntry l k c) else Val.vobj l) = _
  rw [if_pos h']

theorem writeBack_of_not_hasProp (p : Val) (k : String) (c : Val)
    (h : hasProp p k = false) : writeBack p k c = p := by
  cases p with
  | vobj l =>
    have h' : (l.find? (fun e => e.1 = k)).isSome = false := h
    show (if (l.find? (fun e => e.1 = k)).isSome then Val.vobj (setEntry l k c) else Val.vobj l) = _
    rw [h']
    simp
  | vundef => rfl
  | vnull => rfl
  | vbool b => rfl
  | vnum n => rfl
  | vstr s => rfl

theorem getProp_writeBack_ne (p : Val) (k k' : String) (c : Val) (h : k' ≠ k) :
    getProp (writeBack p k c) k' = getProp p k' := by
  cases p with
  | vobj l =>
    show getProp
      (if (l.find? (fun e => e.1 = k)).isSome then Val.vobj (setEntry l k c) else Val.vobj l) k' = _
    by_cases hf : (l.find? (fun e => e.1 = k)).isSome
    · rw [if_pos hf]
      exact getProp_setEntry_ne l k k' c h
    · rw [if_neg hf]
  | vundef => rfl
  | vnull => rfl
  | vbool b => rfl
  | vnum n => rfl
  | vstr s => rfl

theorem getProp_writeBack_self (l : List (String × Val)) (k : String) (c : Val)
    (h : hasProp (.vobj l) k = true) : getProp (writeBack (.vobj l) k c) k = c := by
  rw [writeBack_of_hasProp l k c h, getProp_setEntry_self]

theorem hasProp_writeBack (p : Val) (k k' : String) (c : Val) :
    hasProp (writeBack p k c) k' = hasProp p k' := by
  cases p with
  | vobj l =>
    show hasProp
      (if (l.find? (fun e => e.1 = k)).isSome then Val.vobj (setEntry l k c) else Val.vobj l) k' = _
    by_cases hf : (l.find? (fun e => e.1 = k)).isSome
    · rw [if_pos hf]
      by_cases hk : k' = k
      · subst hk
        rw [hasProp_setEntry_self]
        exact (show hasProp (Val.vobj l) k' = true from hf).symm
      · exact hasProp_setEntry_ne l k k' c hk
    · rw [if_neg hf]
  | vundef => rfl
  | vnull => rfl
  | vbool b => rfl
  | vnum n => rfl
  | vstr s => rfl

/-! ### Error and success provenance through `foldlM` -/

theorem foldlM_ok_of_mem {α β : Type} (f : α → β → Except Err α) :
    ∀ (l : List β) (a b : α), List.foldlM f a l = .ok b → ∀ x ∈ l, ∃ a' c, f a' x = .ok c := by
  intro l
  induction l with
  | nil => intro a b _ x hx; cases hx
  | cons hd tl ih =>
    intro a b hfold x hx
    rw [List.foldlM_cons] at hfold
    cases hstep : f a hd with
    | error e => rw [hstep] at hfold; simp [Bind.bind, Except.bind] at hfold
    | ok a' =>
      rw [hstep] at hfold
      simp only [Bind.bind, Except.bind] at hfold
      rcases List.mem_cons.mp hx with h | h
      · subst h; exact ⟨a, a', hstep⟩
      · exact ih a' b hfold x h

theorem foldlM_error_of_mem {α β : Type} (f : α → β → Except Err α) :
    ∀ (l : List β) (a : α) (e : Err), List.foldlM f a l = .error e →
      ∃ a' x, x ∈ l ∧ f a' x = .error e := by
  intro l
  induction l with
  | nil => intro a e hfold; simp [List.foldlM, pure, Except.pure] at hfold
  | cons hd tl ih =>
    intro a e hfold
    rw [List.foldlM_cons] at hfold
    cases hstep : f a hd with
    | error e' =>
      rw [hstep] at hfold
      simp only [Bind.bind, Except.bind] at hfold
      cases hfold
      exact ⟨a, hd, List.mem_cons_self hd tl, hstep⟩
    | ok a' =>
      rw [hstep] at hfold
      simp only [Bind.bind, Except.bind] at hfold
      obtain ⟨a'', x, hx, hfx⟩ := ih a' e hfold
      exact ⟨a'', x, List.mem_cons_of_mem hd hx, hfx⟩

/-! ### The `metadataToData` projection, characterized without budgets -/

theorem ventriesDepth_le_of_mem {l : List (String × Val)} {e : String × Val} (h : e ∈ l) :
    e.2.depth ≤ ventriesDepth l := by
  induction l with
  | nil => cases h
  | cons hd tl ih =>
    rcases List.mem_cons.mp h with h | h
    · subst h; simp [ventriesDepth, Nat.le_max_left]
    · calc e.2.depth ≤ ventriesDepth tl := ih h
        _ ≤ ventriesDepth (hd :: tl) := by simp [ventriesDepth, Nat.le_max_right]

theorem depth_getProp_le (v : Val) (k : String) : (getProp v k).depth ≤ v.depth := by
  cases v with
  | vobj l =>
    simp only [getProp]
    cases hf : l.find? (fun e => e.1 = k) with
    | none => simp [Val.depth]
    | some e =>
      have hmem := List.mem_of_find?_eq_some hf
      have h2 := ventriesDepth_le_of_mem hmem
      have hd : (Val.vobj l).depth = 1 + ventriesDepth l := rfl
      simp only
      omega
  | vundef => simp [getProp, Val.depth]
  | vnull => simp [getProp, Val.depth]
  | vbool b => simp [getProp, Val.depth]
  | vnum n => simp [getProp, Val.depth]
  | vstr s => simp [getProp, Val.depth]

theorem depth_vobj_pos (l : List (String × Val)) : 0 < (Val.vobj l).depth := by
  simp [Val.depth]

theorem metadataToDataAux_congr :
    ∀ (n : Nat) (m : Nat) (v : Val), v.depth < n → v.depth < m →
      metadataToDataAux n v = metadataToDataAux m v := by
  intro n
  induction n with
  | zero => intro m v hn; omega
  | succ n' ih =>
    intro m v hn hm
    cases m with
    | zero => omega
    | succ m' =>
      cases v with
      | vobj l =>
        simp only [metadataToDataAux]
        congr 1
        apply List.map_congr_left
        intro e he
        by_cases ht : truthy (getProp e.2 "fields")
        · simp only [ht, if_true]
          have h1 : (getProp e.2 "fields").depth ≤ e.2.depth := depth_getProp_le e.2 "fields"
          have h2 : e.2.depth ≤ ventriesDepth l := ventriesDepth_le_of_mem he
          have hd : (Val.vobj l).depth = 1 + ventriesDepth l := rfl
          rw [ih m' (getProp e.2 "fields") (by omega) (by omega)]
        · simp [ht]
      | vundef => rfl
      | vnull => rfl
      | vbool b => rfl
      | vnum i => rfl
      | vstr s => rfl

/-- Projection of a single metadata node, as `metadataToData` treats it:
recurse through a truthy `fields`, otherwise take `initial`. -/
def projNode (info : Val) : Val :=
  if truthy (getProp info "fields") then metadataToData (getProp info "fields")
  else getProp info "initial"

/-- Entry-wise projection of a metadata object's entries. -/
def projEntries (l : List (String × Val)) : List (String × Val) :=
  l.map fun e => (e.1, projNode e.2)

theorem metadataToData_vobj (l : List (String × Val)) :
    metadataToData (.vobj l) = .vobj (projEntries l) := by
  show metadataToDataAux ((Val.vobj l).depth + 1) (.vobj l) = _
  simp only [metadataToDataAux, projEntries]
  congr 1
  apply List.map_congr_left
  intro e he
  by_cases ht : truthy (getProp e.2 "fields")
  · simp only [ht, if_true, projNode, metadataToData]
    have h1 : (getProp e.2 "fields").depth ≤ e.2.depth := depth_getProp_le e.2 "fields"
    have h2 : e.2.depth ≤ ventriesDepth l := ventriesDepth_le_of_mem he
    have hd : (Val.vobj l).depth = 1 + ventriesDepth l := rfl
    rw [metadataToDataAux_congr ((Val.vobj l).depth) ((getProp e.2 "fields").depth + 1)
      (getProp e.2 "fields") (by omega) (by omega)]
  · simp [ht, projNode]

theorem metadataToData_not_obj (v : Val) (h : isPlainObject v = false) :
    metadataToData v = .vobj [] := by
  cases v <;> simp_all [isPlainObject] <;> rfl

theorem projEntries_setEntry (l : List (String × Val)) (k : String) (v : Val) :
    projEntries (setEntry l k v) = setEntry (projEntries l) k (projNode v) := by
  induction l with
  | nil => rfl
  | cons hd tl ih =>
    obtain ⟨k', v'⟩ := hd
    by_cases hk : k' = k
    · subst hk
      simp [setEntry, projEntries]
    · simp [setEntry, hk, projEntries] at *
      exact ih

theorem hasProp_projEntries (l : List (String × Val)) (k : String) :
    hasProp (.vobj (projEntries l)) k = hasProp (.vobj l) k := by
  induction l with
  | nil => rfl
  | cons hd tl ih =>
    obtain ⟨k', v'⟩ := hd
    by_cases hk : k' = k
    · subst hk
      simp [projEntries, hasProp, List.find?_cons]
    · show (((k', projNode v') :: projEntries tl).find? (fun e => e.1 = k)).isSome
        = (((k', v') :: tl).find? (fun e => e.1 = k)).isSome
      rw [find?_cons_pair_ne (projEntries tl) k k' (projNode v') hk,
        find?_cons_pair_ne tl k k' v' hk]
      exact ih

theorem getProp_projEntries (l : List (String × Val)) (k : String)
    (h : hasProp (.vobj l) k = true) :
    getProp (.vobj (projEntries l)) k = projNode (getProp (.vobj l) k) := by
  induction l with
  | nil => simp [hasProp] at h
  | cons hd tl ih =>
    obtain ⟨k', v'⟩ := hd
    by_cases hk : k' = k
    · subst hk
      simp [projEntries, getProp, List.find?_cons]
    · have h' : hasProp (.vobj tl) k = true := by
        show (tl.find? (fun e => e.1 = k)).isSome = true
        rw [← find?_cons_pair_ne tl k k' v' hk]
        exact h
      show (match ((k', projNode v') :: projEntries tl).find? (fun e => e.1 = k) with
        | some e => e.2 | none => Val.vundef) = _
      rw [find?_cons_pair_ne (projEntries tl) k k' (projNode v') hk]
      have hg : getProp (.vobj ((k', v') :: tl)) k = getProp (.vobj tl) k := by
        show (match ((k', v') :: tl).find? (fun e => e.1 = k) with
          | some e => e.2 | none => Val.vundef) = _
        rw [find?_cons_pair_ne tl k k' v' hk]
        rfl
      rw [hg]
      exact ih h'

theorem projNode_setEntry_other (nl : List (String × Val)) (k : String) (v : Val)
    (h1 : k ≠ "fields") (h2 : k ≠ "initial") :
    projNode (.vobj (setEntry nl k v)) = projNode (.vobj nl) := by
  simp only [projNode, getProp_setEntry_ne nl k "fields" v (Ne.symm h1),
    getProp_setEntry_ne nl k "initial" v (Ne.symm h2)]

/-! ### Unfolding the interpreter tower -/

theorem resolve_def (metadataFrom : MetadataValueFromType) (fields : List (String × Specifier))
    (input data metadata : Val) :
    resolve metadataFrom fields input data metadata =
      resolveAux (levels (listDepth fields)) metadataFrom fields input data metadata := rfl

theorem doInitialize_def (fields : List (String × Specifier)) (data metadata : Val) :
    doInitialize fields data metadata =
      doInitializeAux (levels (listDepth fields)) fields data metadata := rfl

theorem levels_succ_resolve (n : Nat) : (levels (n + 1)).resolve = resolveAux (levels n) := rfl

theorem levels_succ_doInitialize (n : Nat) :
    (levels (n + 1)).doInitialize = doInitializeAux (levels n) := rfl

/-! ### Claim C9: non-object values for record-type settings -/

/-- Modelled from the spec: the error taxonomy of its section 7 lists exactly
these error kinds (one table row per kind). -/
def specErrorTaxonomy : List String :=
  ["InvalidInitializerKind", "UnknownSetting", "NotANamespace", "ShorthandNotSupported",
   "ShorthandError", "InitializerError", "FixupError", "OnFixupError",
   "ValidationRuntimeError", "ValidationFailed", "TypeMapperError"]

/-- The spec-taxonomy kind corresponding to each embedded error, `none` when
no row of the taxonomy covers the error.  The hook-exception kinds
(`ShorthandError`, `InitializerError`, `FixupError`, `OnFixupError`,
`ValidationRuntimeError`, `TypeMapperError`) have no counterpart here because
hooks are total functions in the embedding. -/
def Err.specKind : Err → Option String
  | .unknownSetting _ => some "UnknownSetting"
  | .notANamespace _ _ => some "NotANamespace"
  | .shorthandNonObject _ _ => some "ShorthandNotSupported"
  | .invalidInitializer _ => some "InvalidInitializerKind"
  | .validationFailed _ _ _ => some "ValidationFailed"
  | .recordNonObject => none
  | .unknownSpecifierKind _ => none
  | .jsTypeError => none
  | .fuel => none

theorem resolveField_record_non_object (prev : Level) (fields : List (String × Specifier))
    (name : String) (spec : Specifier) (efs : List (String × Specifier)) (v data metadata : Val)
    (hlk : lookupField fields name = some spec)
    (hfs : spec.fields = none) (hefs : spec.entryFields = some efs)
    (hobj : isPlainObject v = false) :
    resolveField prev .set fields name v data metadata = .error .recordNonObject := by
  simp only [resolveField, hlk, hfs, hefs, hobj, resolveRecord, Bool.false_and, if_false,
    Bool.not_false, if_true, Bind.bind, Except.bind]
  simp

/-- C9: whenever the value supplied for a record-type setting (a specifier
with `entryFields` and, for the dispatch to reach the record path, no
`fields`) is not a plain object, `change` throws the
received-a-non-object-for-record-type-settings error; and this error kind is
absent from the spec's error taxonomy (`Err.specKind` sends it to `none`,
and indeed no name it could carry occurs in `specErrorTaxonomy`). -/
theorem C9_record_non_object_error (fields : List (String × Specifier))
    (name : String) (spec : Specifier) (efs : List (String × Specifier)) (v data metadata : Val)
    (hlk : lookupField fields name = some spec)
    (hfs : spec.fields = none) (hefs : spec.entryFields = some efs)
    (hobj : isPlainObject v = false) :
    resolve .set fields (.vobj [(name, v)]) data metadata = .error .recordNonObject ∧
      Err.specKind .recordNonObject = none := by
  constructor
  · rw [resolve_def]
    show List.foldlM _ (data, metadata) [(name, v)] = _
    rw [List.foldlM_cons]
    rw [resolveField_record_non_object (levels (listDepth fields)) fields name spec efs v
      data metadata hlk hfs hefs hobj]
    rfl
  · rfl

/-- The record specifier used in the C9 witness. -/
def c9Spec : List (String × Specifier) :=
  [("r", .mk none none none none none none
    (some [("x", .mk (some (.func fun _ => .vnum 1)) none none none none none none)]))]

theorem C9_record_non_object_error_witness :
    resolve .set c9Spec (.vobj [("r", .vstr "oops")]) (.vobj [("r", .vobj [])])
        (.vobj [("r", initMetadataRecord (.vobj []))]) = .error .recordNonObject ∧
      Err.specKind .recordNonObject = none :=
  C9_record_non_object_error c9Spec "r"
    (.mk none none none none none none
      (some [("x", .mk (some (.func fun _ => .vnum 1)) none none none none none none)]))
    [("x", .mk (some (.func fun _ => .vnum 1)) none none none none none none)]
    (.vstr "oops") (.vobj [("r", .vobj [])]) (.vobj [("r", initMetadataRecord (.vobj []))])
    rfl rfl rfl rfl

/-! ### Claim C1: the leaf commit pipeline order -/

theorem hasProp_of_getProp_vobj (l : List (String × Val)) (k : String) (nl : List (String × Val))
    (h : getProp (.vobj l) k = .vobj nl) : hasProp (.vobj l) k = true := by
  show (l.find? (fun e => e.1 = k)).isSome = true
  cases hf : l.find? (fun e => e.1 = k) with
  | none =>
    exfalso
    have : getProp (.vobj l) k = .vundef := by
      show (match l.find? (fun e => e.1 = k) with
        | some e => e.2 | none => Val.vundef) = _
      rw [hf]
    rw [h] at this
    cases this
  | some e => rfl

/-- C1: on a `change` (`from = set`) of a leaf defining `fixup`, `validate`
and `mapType`, the pipeline runs fixup first (its corrected value, when
non-null, is what the validator receives), then validation (rejection
reports the pre-mapped value), then the type mapper, whose result is the
committed data value and metadata `value`; the metadata node keeps its
`initial` untouched.  In particular a value whose fixed-up form passes
validation commits successfully regardless of how the validator would have
judged the original. -/
theorem C1_leaf_pipeline_order (fields : List (String × Specifier)) (name : String)
    (i : Option Initializer) (sh : Option (Val → Val))
    (fx : Val → Option FixupOut) (va : Val → Option (List String)) (mt : Val → Val)
    (v : Val) (dl ml nl : List (String × Val))
    (hlk : lookupField fields name = some (.mk i sh (some fx) (some va) (some mt) none none))
    (hobj : isPlainObject v = false)
    (hnode : getProp (.vobj ml) name = .vobj nl) :
    (va (match fx v with | some out => out.value | none => v) = none →
      resolve .set fields (.vobj [(name, v)]) (.vobj dl) (.vobj ml) =
        .ok (.vobj (setEntry dl name (mt (match fx v with | some out => out.value | none => v))),
          .vobj (setEntry ml name (.vobj (setEntry
            (setEntry nl "value" (mt (match fx v with | some out => out.value | none => v)))
            "from" (.vstr "set")))))) ∧
    (∀ msgs, va (match fx v with | some out => out.value | none => v) = some msgs →
      resolve .set fields (.vobj [(name, v)]) (.vobj dl) (.vobj ml) =
        .error (.validationFailed name
          (match fx v with | some out => out.value | none => v) msgs)) := by
  have hstep : ∀ r : Except Err (Val × Val),
      resolveLeaf .set (.mk i sh (some fx) (some va) (some mt) none none) name v
        (.vobj dl) (.vobj ml) = r →
      resolve .set fields (.vobj [(name, v)]) (.vobj dl) (.vobj ml) = r := by
    intro r hr
    rw [resolve_def]
    show List.foldlM _ ((Val.vobj dl), (Val.vobj ml)) [(name, v)] = r
    rw [List.foldlM_cons]
    have hfield : resolveField (levels (listDepth fields)) .set fields name v
        (.vobj dl) (.vobj ml) = r := by
      simp only [resolveField, hlk, hobj, Specifier.fields, Specifier.entryFields,
        Bool.false_and, if_false]
      simpa using hr
    rw [hfield]
    cases r with
    | ok p => rfl
    | error e => rfl
  constructor
  · intro hva
    apply hstep
    simp only [resolveLeaf, Specifier.fixup, Specifier.validate, Specifier.mapType, hva]
    rw [hnode]
    simp only [setProp_vobj, Bind.bind, Except.bind, runTypeMapper]
    rw [writeBack_of_hasProp ml name _ (hasProp_of_getProp_vobj ml name nl hnode)]
    rfl
  · intro msgs hva
    apply hstep
    simp only [resolveLeaf, Specifier.fixup, Specifier.validate, Specifier.mapType, hva]

/-- The fixup of the C1 witness: force the value to the string `L`. -/
def c1Fx : Val → Option FixupOut := fun _ => some ⟨.vstr "L", ["leading"]⟩

/-- The validator of the C1 witness: only the string `L` passes. -/
def c1Va : Val → Option (List String) :=
  fun w => match w with
  | .vstr "L" => none
  | _ => some ["bad"]

/-- The type mapper of the C1 witness. -/
def c1Mt : Val → Val :=
  fun w => match w with
  | .vstr s => .vstr (s ++ "!")
  | w => w

/-- The single-leaf spec of the C1 witness. -/
def c1Spec : List (String × Specifier) :=
  [("path", .mk none none (some c1Fx) (some c1Va) (some c1Mt) none none)]

theorem C1_leaf_pipeline_order_witness :
    (resolve .set c1Spec (.vobj [("path", .vstr "orig")]) (.vobj [("path", .vstr "init")])
        (.vobj [("path", initMetadataField (.vstr "init"))]) =
      .ok (.vobj [("path", .vstr "L!")],
        .vobj [("path", .vobj [("type", .vstr "leaf"), ("from", .vstr "set"),
          ("value", .vstr "L!"), ("initial", .vstr "init")])])) ∧
    c1Va (.vstr "orig") = some ["bad"] :=
  ⟨(C1_leaf_pipeline_order c1Spec "path" none none c1Fx c1Va c1Mt (.vstr "orig")
      [("path", .vstr "init")] [("path", initMetadataField (.vstr "init"))]
      [("type", .vstr "leaf"), ("from", .vstr "initial"),
        ("value", .vstr "init"), ("initial", .vstr "init")]
      rfl rfl rfl).1 rfl, rfl⟩

/-! ### Claim C7: shorthand equivalence -/

/-- C7: on a namespace with a shorthand, changing with a non-object value
`v` produces exactly the same data and metadata as changing with the
longhand object `shorthand v`: both paths reduce to the same recursive
resolution of the longhand against the namespace's fields (so fixups and
validators of the expanded fields run identically). -/
theorem C7_shorthand_equivalence (fields : List (String × Specifier)) (name : String)
    (spec : Specifier) (sh : Val → Val) (nsf : List (String × Specifier))
    (v data metadata : Val)
    (hlk : lookupField fields name = some spec)
    (hsh : spec.shorthand = some sh)
    (hfs : spec.fields = some nsf)
    (hv : isPlainObject v = false)
    (hshv : isPlainObject (sh v) = true) :
    resolve .set fields (.vobj [(name, v)]) data metadata =
      resolve .set fields (.vobj [(name, sh v)]) data metadata := by
  obtain ⟨i, sh0, fx, va, mt, fs, efs⟩ := spec
  simp only [Specifier.shorthand] at hsh
  simp only [Specifier.fields] at hfs
  subst hsh
  subst hfs
  rw [resolve_def, resolve_def]
  show List.foldlM _ (data, metadata) [(name, v)] =
    List.foldlM _ (data, metadata) [(name, sh v)]
  rw [List.foldlM_cons, List.foldlM_cons]
  have hfield : resolveField (levels (listDepth fields)) .set fields name v data metadata =
      resolveField (levels (listDepth fields)) .set fields name (sh v) data metadata := by
    simp only [resolveField, hlk, hv, hshv, Specifier.fields, Specifier.entryFields,
      Bool.false_and, Bool.true_and, if_false, resolveNamespace, Specifier.shorthand,
      Option.isSome_some, Option.isNone_some, Bool.and_false, Bool.not_false, Bool.not_true,
      if_true]
    simp [hshv]
  rw [hfield]

/-- The namespace-with-shorthand spec of the C7 witness. -/
def c7Spec : List (String × Specifier) :=
  [("a", .mk none (some fun w => .vobj [("b", w)]) none none none
    (some [("b", .mk (some (.func fun _ => .vstr "")) none none none none none none)]) none)]

theorem C7_shorthand_equivalence_witness :
    resolve .set c7Spec (.vobj [("a", .vstr "hi")])
        (.vobj [("a", .vobj [("b", .vstr "")])])
        (.vobj [("a", .vobj [("fields", .vobj [("b", initMetadataField (.vstr ""))])])]) =
      resolve .set c7Spec (.vobj [("a", .vobj [("b", .vstr "hi")])])
        (.vobj [("a", .vobj [("b", .vstr "")])])
        (.vobj [("a", .vobj [("fields", .vobj [("b", initMetadataField (.vstr ""))])])]) :=
  C7_shorthand_equivalence c7Spec "a"
    (.mk none (some fun w => .vobj [("b", w)]) none none none
      (some [("b", .mk (some (.func fun _ => .vstr "")) none none none none none none)]) none)
    (fun w => .vobj [("b", w)])
    [("b", .mk (some (.func fun _ => .vstr "")) none none none none none none)]
    (.vstr "hi") (.vobj [("a", .vobj [("b", .vstr "")])])
    (.vobj [("a", .vobj [("fields", .vobj [("b", initMetadataField (.vstr ""))])])])
    rfl rfl rfl rfl rfl

/-! ### Claim C8: unknown settings are rejected -/

theorem resolveField_unknown (prev : Level) (metadataFrom : MetadataValueFromType)
    (fields : List (String × Specifier)) (k : String) (v data metadata : Val)
    (hlk : lookupField fields k = none) :
    resolveField prev metadataFrom fields k v data metadata = .error (.unknownSetting k) := by
  simp only [resolveField, hlk]

/-- C8: a `change` whose input contains a key with no specifier at that level
never succeeds (nothing is silently ignored or committed for it), and when
that key is the first one processed the thrown error is exactly
`UnknownSetting` naming the key. -/
theorem C8_unknown_setting_rejected (fields : List (String × Specifier)) (k : String)
    (v input data metadata : Val)
    (hlk : lookupField fields k = none)
    (hmem : (k, v) ∈ ownEntries input) :
    (∀ out, resolve .set fields input data metadata ≠ .ok out) ∧
    (∀ rest, resolve .set fields (.vobj ((k, v) :: rest)) data metadata =
      .error (.unknownSetting k)) := by
  constructor
  · intro out hok
    rw [resolve_def] at hok
    obtain ⟨a', c, hstep⟩ :=
      foldlM_ok_of_mem _ (ownEntries input) (data, metadata) out hok (k, v) hmem
    rw [resolveField_unknown (levels (listDepth fields)) .set fields k v a'.1 a'.2 hlk] at hstep
    cases hstep
  · intro rest
    rw [resolve_def]
    show List.foldlM _ (data, metadata) ((k, v) :: rest) = _
    rw [List.foldlM_cons]
    rw [resolveField_unknown (levels (listDepth fields)) .set fields k v data metadata hlk]
    rfl

/-- The single-leaf spec of the C8 witness. -/
def c8Spec : List (String × Specifier) :=
  [("a", .mk (some (.func fun _ => .vstr "")) none none none none none none)]

theorem C8_unknown_setting_rejected_witness :
    (∀ out, resolve .set c8Spec (.vobj [("z", .vstr "")]) (.vobj [("a", .vstr "")])
      (.vobj [("a", initMetadataField (.vstr ""))]) ≠ .ok out) ∧
    (∀ rest, resolve .set c8Spec (.vobj (("z", .vstr "") :: rest)) (.vobj [("a", .vstr "")])
      (.vobj [("a", initMetadataField (.vstr ""))]) = .error (.unknownSetting "z")) :=
  C8_unknown_setting_rejected c8Spec "z" (.vstr "") (.vobj [("z", .vstr "")])
    (.vobj [("a", .vstr "")]) (.vobj [("a", initMetadataField (.vstr ""))])
    rfl (by simp [ownEntries])

/-! ### Claim C6: namespace changes merge, they do not replace -/

theorem setProp_ok_obj {d : Val} {k : String} {v d' : Val} (h : setProp d k v = .ok d') :
    ∃ l, d = .vobj l ∧ d' = .vobj (setEntry l k v) := by
  cases d with
  | vobj l =>
    refine ⟨l, rfl, ?_⟩
    have : Except.ok (ε := Err) (Val.vobj (setEntry l k v)) = .ok d' := h
    cases this
    rfl
  | vundef => cases h
  | vnull => cases h
  | vbool b => cases h
  | vnum n => cases h
  | vstr s => cases h

theorem getProp_of_setProp_ne {d : Val} {name : String} {v d' : Val} (k : String)
    (hk : k ≠ name) (h : setProp d name v = .ok d') : getProp d' k = getProp d k := by
  obtain ⟨l, rfl, rfl⟩ := setProp_ok_obj h
  exact getProp_setEntry_ne l name k v hk

theorem getProp_of_setProp_self {d : Val} {name : String} {v d' : Val}
    (h : setProp d name v = .ok d') : getProp d' name = v := by
  obtain ⟨l, rfl, rfl⟩ := setProp_ok_obj h
  exact getProp_setEntry_self l name v

theorem hasProp_of_setProp_ne {d : Val} {name : String} {v d' : Val} (k : String)
    (hk : k ≠ name) (h : setProp d name v = .ok d') : hasProp d' k = hasProp d k := by
  obtain ⟨l, rfl, rfl⟩ := setProp_ok_obj h
  exact hasProp_setEntry_ne l name k v hk

theorem resolveLeaf_frame (metadataFrom : MetadataValueFromType) (spec : Specifier)
    (name : String) (v data metadata : Val) (out : Val × Val)
    (h : resolveLeaf metadataFrom spec name v data metadata = .ok out) :
    ∀ k, k ≠ name → getProp out.1 k = getProp data k ∧ getProp out.2 k = getProp metadata k := by
  intro k hk
  simp only [resolveLeaf, Bind.bind, Except.bind] at h
  split at h
  · cases h
  · split at h
    · cases h
    · rename_i data' hd
      split at h
      · cases h
      · rename_i node1 hn1
        split at h
        · cases h
        · rename_i node2 hn2
          split at h
          · -- metadataFrom = initial: one more property write
            split at h
            · cases h
            · rename_i node3 hn3
              cases h
              exact ⟨getProp_of_setProp_ne k hk hd,
                getProp_writeBack_ne metadata name k node3 hk⟩
          · -- metadataFrom = set
            cases h
            exact ⟨getProp_of_setProp_ne k hk hd,
              getProp_writeBack_ne metadata name k node2 hk⟩

theorem resolveField_frame (prev : Level) (metadataFrom : MetadataValueFromType)
    (fields : List (String × Specifier)) (name : String) (v data metadata : Val) (out : Val × Val)
    (h : resolveField prev metadataFrom fields name v data metadata = .ok out) :
    ∀ k, k ≠ name → getProp out.1 k = getProp data k ∧ getProp out.2 k = getProp metadata k := by
  intro k hk
  simp only [resolveField] at h
  split at h
  · cases h
  · split at h
    · cases h
    · split at h
      · cases h
      · split at h
        · -- namespace branch
          simp only [Bind.bind, Except.bind] at h
          split at h
          · cases h
          · cases h
            exact ⟨getProp_writeBack_ne data name k _ hk,
              getProp_writeBack_ne metadata name k _ hk⟩
        · split at h
          · -- record branch
            simp only [Bind.bind, Except.bind] at h
            split at h
            · cases h
            · cases h
              exact ⟨getProp_writeBack_ne data name k _ hk,
                getProp_writeBack_ne metadata name k _ hk⟩
          · exact resolveLeaf_frame metadataFrom _ name v data metadata out h k hk

theorem resolveAux_frame (prev : Level) (metadataFrom : MetadataValueFromType)
    (fields : List (String × Specifier)) :
    ∀ (entries : List (String × Val)) (data metadata : Val) (out : Val × Val),
      List.foldlM
        (fun (acc : Val × Val) entry =>
          resolveField prev metadataFrom fields entry.1 entry.2 acc.1 acc.2)
        (data, metadata) entries = .ok out →
      ∀ k, (∀ p ∈ entries, p.1 ≠ k) →
        getProp out.1 k = getProp data k ∧ getProp out.2 k = getProp metadata k := by
  intro entries
  induction entries with
  | nil =>
    intro data metadata out h k _
    cases h
    exact ⟨rfl, rfl⟩
  | cons hd tl ih =>
    intro data metadata out h k hks
    rw [List.foldlM_cons] at h
    cases hstep : resolveField prev metadataFrom fields hd.1 hd.2 data metadata with
    | error e => rw [hstep] at h; cases h
    | ok acc' =>
      rw [hstep] at h
      simp only [Bind.bind, Except.bind] at h
      have hne : k ≠ hd.1 := Ne.symm (hks hd (List.mem_cons_self hd tl))
      have hfr := resolveField_frame prev metadataFrom fields hd.1 hd.2 data metadata acc'
        hstep k hne
      have hrest := ih acc'.1 acc'.2 out (by
        cases acc'
        exact h) k (fun p hp => hks p (List.mem_cons_of_mem hd hp))
      exact ⟨hrest.1.trans hfr.1, hrest.2.trans hfr.2⟩

/-- The whole-input frame property of `resolve`: keys absent from the input
keep their data and metadata. -/
theorem resolve_frame (metadataFrom : MetadataValueFromType)
    (fields : List (String × Specifier)) (input data metadata : Val) (out : Val × Val)
    (h : resolve metadataFrom fields input data metadata = .ok out) :
    ∀ k, (∀ p ∈ ownEntries input, p.1 ≠ k) →
      getProp out.1 k = getProp data k ∧ getProp out.2 k = getProp metadata k := by
  rw [resolve_def] at h
  exact resolveAux_frame (levels (listDepth fields)) metadataFrom fields (ownEntries input)
    data metadata out h

theorem getProp_writeBack_self_any (p : Val) (k : String) (c : Val)
    (h : hasProp p k = true) : getProp (writeBack p k c) k = c := by
  cases p with
  | vobj l => exact getProp_writeBack_self l k c h
  | vundef => cases h
  | vnull => cases h
  | vbool b => cases h
  | vnum n => cases h
  | vstr s => cases h

theorem lookupField_depth_le (fields : List (String × Specifier)) (name : String)
    (spec : Specifier) (h : lookupField fields name = some spec) :
    spec.depth ≤ listDepth fields := by
  induction fields with
  | nil => cases h
  | cons hd tl ih =>
    obtain ⟨n, s⟩ := hd
    by_cases hn : n = name
    · simp only [lookupField, hn, if_true] at h
      cases h
      simp [listDepth, Nat.le_max_left]
    · simp only [lookupField, hn, if_false] at h
      calc spec.depth ≤ listDepth tl := ih h
        _ ≤ listDepth ((n, s) :: tl) := by simp [listDepth, Nat.le_max_right]

theorem Specifier.depth_pos (spec : Specifier) : 1 ≤ spec.depth := by
  obtain ⟨i, sh, fx, va, mt, fs, efs⟩ := spec
  simp [Specifier.depth]

theorem resolveNamespace_obj_ok (prev : Level) (metadataFrom : MetadataValueFromType)
    (i : Option Initializer) (sh0 : Option (Val → Val)) (fx : Option (Val → Option FixupOut))
    (va : Option (Val → Option (List String))) (mt : Option (Val → Val))
    (nsf : List (String × Specifier)) (efs : Option (List (String × Specifier)))
    (sub : List (String × Val)) (path : String) (dataNode mdNode : Val) (out : Val × Val)
    (h : resolveNamespace prev metadataFrom (.mk i sh0 fx va mt (some nsf) efs)
      (.vobj sub) path dataNode mdNode = .ok out) :
    ∃ dn mdfn, prev.resolve metadataFrom nsf (.vobj sub) dataNode (getProp mdNode "fields") =
        .ok (dn, mdfn) ∧
      out = (dn, writeBack mdNode "fields" mdfn) := by
  have hexp : resolveNamespace prev metadataFrom (.mk i sh0 fx va mt (some nsf) efs)
      (.vobj sub) path dataNode mdNode =
      (do
        let p ← prev.resolve metadataFrom nsf (.vobj sub) dataNode (getProp mdNode "fields")
        .ok (p.1, writeBack mdNode "fields" p.2)) := by
    cases sh0 with
    | none =>
      simp only [resolveNamespace, Specifier.fields, Specifier.shorthand, isPlainObject,
        Bool.not_true, Bool.false_and, if_false, Bind.bind, Except.bind]
      simp
    | some shfn =>
      simp only [resolveNamespace, Specifier.fields, Specifier.shorthand, isPlainObject,
        Bool.not_true, Bool.false_and, Bool.and_false, if_false, ite_false,
        Bind.bind, Except.bind]
      simp
  rw [hexp] at h
  cases hres : prev.resolve metadataFrom nsf (.vobj sub) dataNode (getProp mdNode "fields") with
  | error e =>
    simp only [hres, Bind.bind, Except.bind] at h
    cases h
  | ok p =>
    obtain ⟨dn, mdfn⟩ := p
    simp only [hres, Bind.bind, Except.bind] at h
    cases h
    exact ⟨dn, mdfn, rfl, rfl⟩

theorem resolveField_ns_ok (prev : Level) (metadataFrom : MetadataValueFromType)
    (fields : List (String × Specifier)) (name : String) (spec : Specifier)
    (nsf : List (String × Specifier)) (v data metadata : Val) (acc : Val × Val)
    (hlk : lookupField fields name = some spec)
    (hfs : spec.fields = some nsf)
    (h : resolveField prev metadataFrom fields name v data metadata = .ok acc) :
    ∃ p, resolveNamespace prev metadataFrom spec v name (getProp data name)
        (getProp metadata name) = .ok p ∧
      acc = (writeBack data name p.1, writeBack metadata name p.2) := by
  obtain ⟨i, sh0, fx, va, mt, fs, efs⟩ := spec
  simp only [Specifier.fields] at hfs
  subst hfs
  simp only [resolveField, hlk, Specifier.fields, Specifier.entryFields, Option.isNone_some,
    Bool.and_false, Bool.false_and, Bool.and_self, if_false, Bind.bind, Except.bind] at h
  cases hns : resolveNamespace prev metadataFrom (.mk i sh0 fx va mt (some nsf) efs) v name
      (getProp data name) (getProp metadata name) with
  | error e =>
    simp only [hns, Bind.bind, Except.bind] at h
    cases h
  | ok p =>
    simp only [hns, Bind.bind, Except.bind] at h
    cases h
    exact ⟨p, rfl, rfl⟩

/-- C6: a `change` that targets a namespace with an object naming only some
of the namespace's fields leaves every other field's data and metadata
inside that namespace untouched (deep merge, not replace). -/
theorem C6_namespace_merge_not_replace (fields : List (String × Specifier)) (name : String)
    (spec : Specifier) (nsf : List (String × Specifier)) (sub : List (String × Val))
    (data metadata : Val) (out : Val × Val) (k : String)
    (hlk : lookupField fields name = some spec)
    (hfs : spec.fields = some nsf)
    (h : resolve .set fields (.vobj [(name, .vobj sub)]) data metadata = .ok out)
    (hk : ∀ p ∈ sub, p.1 ≠ k) :
    getProp (getProp out.1 name) k = getProp (getProp data name) k ∧
    getProp (getProp (getProp out.2 name) "fields") k =
      getProp (getProp (getProp metadata name) "fields") k := by
  obtain ⟨m, hD⟩ : ∃ m, listDepth fields = m + 1 := by
    have h1 := lookupField_depth_le fields name spec hlk
    have h2 := Specifier.depth_pos spec
    cases hd : listDepth fields with
    | zero => omega
    | succ m => exact ⟨m, rfl⟩
  rw [resolve_def] at h
  have hfold : List.foldlM
      (fun (acc : Val × Val) entry =>
        resolveField (levels (listDepth fields)) .set fields entry.1 entry.2 acc.1 acc.2)
      (data, metadata) [(name, .vobj sub)] = .ok out := h
  rw [List.foldlM_cons] at hfold
  cases hstep : resolveField (levels (listDepth fields)) .set fields name (.vobj sub)
      data metadata with
  | error e => rw [hstep] at hfold; cases hfold
  | ok acc' =>
    rw [hstep] at hfold
    simp only [Bind.bind, Except.bind, List.foldlM] at hfold
    have hout : acc' = out := by
      cases acc'
      cases hfold
      rfl
    subst hout
    obtain ⟨p, hns, hacc⟩ := resolveField_ns_ok (levels (listDepth fields)) .set fields name
      spec nsf (.vobj sub) data metadata acc' hlk hfs hstep
    obtain ⟨i, sh0, fx, va, mt, fs, efs⟩ := spec
    simp only [Specifier.fields] at hfs
    subst hfs
    obtain ⟨dn, mdfn, hres, hp⟩ := resolveNamespace_obj_ok (levels (listDepth fields)) .set
      i sh0 fx va mt nsf efs sub name (getProp data name) (getProp metadata name) p hns
    subst hp
    subst hacc
    have hres' : resolveAux (levels m) .set nsf (.vobj sub) (getProp data name)
        (getProp (getProp metadata name) "fields") = .ok (dn, mdfn) := by
      rw [← levels_succ_resolve m, ← hD]
      exact hres
    have hframe := resolveAux_frame (levels m) .set nsf sub (getProp data name)
      (getProp (getProp metadata name) "fields") (dn, mdfn) hres' k hk
    refine ⟨?_, ?_⟩
    · by_cases hp : hasProp data name = true
      · rw [getProp_writeBack_self_any data name dn hp]
        exact hframe.1
      · rw [writeBack_of_not_hasProp data name dn (by simpa using hp)]
    · by_cases hp : hasProp metadata name = true
      · rw [getProp_writeBack_self_any metadata name _ hp]
        by_cases hpf : hasProp (getProp metadata name) "fields" = true
        · rw [getProp_writeBack_self_any (getProp metadata name) "fields" mdfn hpf]
          exact hframe.2
        · rw [writeBack_of_not_hasProp (getProp metadata name) "fields" mdfn
            (by simpa using hpf)]
      · rw [writeBack_of_not_hasProp metadata name _ (by simpa using hp)]

/-- The namespace spec of the C6 witness: fields `x` and `y` initialized to
1 and 2. -/
def c6Spec : List (String × Specifier) :=
  [("a", .mk none none none none none
    (some [("x", .mk (some (.func fun _ => .vnum 1)) none none none none none none),
           ("y", .mk (some (.func fun _ => .vnum 2)) none none none none none none)]) none)]

theorem C6_namespace_merge_not_replace_witness :
    getProp (getProp (Val.vobj [("a", .vobj [("x", .vnum 9), ("y", .vnum 2)])]) "a") "y" =
      getProp (getProp (Val.vobj [("a", .vobj [("x", .vnum 1), ("y", .vnum 2)])]) "a") "y" ∧
    getProp (getProp (getProp (Val.vobj [("a", .vobj [("fields", .vobj
        [("x", .vobj [("type", .vstr "leaf"), ("from", .vstr "set"),
          ("value", .vnum 9), ("initial", .vnum 1)]),
         ("y", initMetadataField (.vnum 2))])])]) "a") "fields") "y" =
      getProp (getProp (getProp (Val.vobj [("a", .vobj [("fields", .vobj
        [("x", initMetadataField (.vnum 1)),
         ("y", initMetadataField (.vnum 2))])])]) "a") "fields") "y" :=
  C6_namespace_merge_not_replace c6Spec "a"
    (.mk none none none none none
      (some [("x", .mk (some (.func fun _ => .vnum 1)) none none none none none none),
             ("y", .mk (some (.func fun _ => .vnum 2)) none none none none none none)]) none)
    [("x", .mk (some (.func fun _ => .vnum 1)) none none none none none none),
     ("y", .mk (some (.func fun _ => .vnum 2)) none none none none none none)]
    [("x", .vnum 9)]
    (.vobj [("a", .vobj [("x", .vnum 1), ("y", .vnum 2)])])
    (.vobj [("a", .vobj [("fields", .vobj
      [("x", initMetadataField (.vnum 1)), ("y", initMetadataField (.vnum 2))])])])
    ((.vobj [("a", .vobj [("x", .vnum 9), ("y", .vnum 2)])]),
     (.vobj [("a", .vobj [("fields", .vobj
      [("x", .vobj [("type", .vstr "leaf"), ("from", .vstr "set"),
        ("value", .vnum 9), ("initial", .vnum 1)]),
       ("y", initMetadataField (.vnum 2))])])]))
    "y" rfl rfl rfl (by simp)

/-! ### Claim C10: the unknown-specifier-kind branch is dead code -/

theorem setProp_error_eq {d : Val} {k : String} {v : Val} {e : Err}
    (h : setProp d k v = .error e) : e = .jsTypeError := by
  cases d with
  | vobj l => cases h
  | vundef => cases h; rfl
  | vnull => cases h; rfl
  | vbool b => cases h; rfl
  | vnum n => cases h; rfl
  | vstr s => cases h; rfl

theorem runInitializer_error_eq {i : Option Initializer} {name : String} {d : Val} {e : Err}
    (h : runInitializer i name d = .error e) : e = .invalidInitializer name := by
  cases i with
  | none => cases h
  | some ini =>
    cases ini with
    | func f => cases h
    | static v => cases h; rfl

theorem foldlM_ne_error {α β : Type} (f : α → β → Except Err α) (e0 : Err)
    (hstep : ∀ a x, f a x ≠ .error e0) :
    ∀ (l : List β) (a : α), List.foldlM f a l ≠ .error e0 := by
  intro l a h
  obtain ⟨a', x, _, hx⟩ := foldlM_error_of_mem f l a e0 h
  exact hstep a' x hx

theorem resolveLeaf_ne_unknownKind (metadataFrom : MetadataValueFromType) (spec : Specifier)
    (name : String) (v data metadata : Val) (nm : String) :
    resolveLeaf metadataFrom spec name v data metadata ≠
      .error (.unknownSpecifierKind nm) := by
  intro h
  simp only [resolveLeaf, Bind.bind, Except.bind] at h
  split at h
  · simp at h
  · split at h
    · rename_i err heq
      cases h
      cases setProp_error_eq heq
    · split at h
      · rename_i err heq
        cases h
        cases setProp_error_eq heq
      · split at h
        · rename_i err heq
          cases h
          cases setProp_error_eq heq
        · split at h
          · split at h
            · rename_i err heq
              cases h
              cases setProp_error_eq heq
            · cases h
          · cases h

theorem resolveNamespace_ne_unknownKind (prev : Level)
    (Hr : ∀ metadataFrom fields input data metadata nm,
      prev.resolve metadataFrom fields input data metadata ≠
        .error (.unknownSpecifierKind nm))
    (metadataFrom : MetadataValueFromType) (specifier : Specifier) (v : Val) (path : String)
    (data metadata : Val) (nm : String) :
    resolveNamespace prev metadataFrom specifier v path data metadata ≠
      .error (.unknownSpecifierKind nm) := by
  intro h
  simp only [resolveNamespace, Bind.bind, Except.bind] at h
  split at h
  · simp at h
  · split at h
    · split at h
      · rename_i err heq
        cases h
        exact Hr _ _ _ _ _ _ heq
      · cases h
    · split at h
      · cases h
      · simp at h

theorem resolveRecord_ne_unknownKind (prev : Level)
    (Hr : ∀ metadataFrom fields input data metadata nm,
      prev.resolve metadataFrom fields input data metadata ≠
        .error (.unknownSpecifierKind nm))
    (Hd : ∀ fields data metadata nm,
      prev.doInitialize fields data metadata ≠ .error (.unknownSpecifierKind nm))
    (metadataFrom : MetadataValueFromType) (entryFields : List (String × Specifier)) (v : Val)
    (data metadata : Val) (nm : String) :
    resolveRecord prev metadataFrom entryFields v data metadata ≠
      .error (.unknownSpecifierKind nm) := by
  intro h
  simp only [resolveRecord] at h
  split at h
  · simp at h
  · refine foldlM_ne_error _ (.unknownSpecifierKind nm) ?_ (ownEntries v) (data, metadata) h
    intro a x
    intro hstep
    simp only [Bind.bind, Except.bind] at hstep
    split at hstep
    · split at hstep
      · rename_i err heq
        cases hstep
        exact Hd _ _ _ _ heq
      · split at hstep
        · rename_i err heq
          cases hstep
          cases setProp_error_eq heq
        · split at hstep
          · rename_i err heq
            cases hstep
            cases setProp_error_eq heq
          · split at hstep
            · rename_i err heq
              cases hstep
              exact Hr _ _ _ _ _ _ heq
            · cases hstep
    · split at hstep
      · rename_i err heq
        cases hstep
        exact Hr _ _ _ _ _ _ heq
      · cases hstep

theorem resolveField_ne_unknownKind (prev : Level)
    (Hr : ∀ metadataFrom fields input data metadata nm,
      prev.resolve metadataFrom fields input data metadata ≠
        .error (.unknownSpecifierKind nm))
    (Hd : ∀ fields data metadata nm,
      prev.doInitialize fields data metadata ≠ .error (.unknownSpecifierKind nm))
    (metadataFrom : MetadataValueFromType) (fields : List (String × Specifier)) (name : String)
    (v data metadata : Val) (nm : String) :
    resolveField prev metadataFrom fields name v data metadata ≠
      .error (.unknownSpecifierKind nm) := by
  intro h
  simp only [resolveField] at h
  split at h
  · simp at h
  · rename_i specifier hlk
    by_cases hg : (isPlainObject v && specifier.fields.isNone && specifier.entryFields.isNone)
        = true
    · rw [if_pos hg] at h
      simp at h
    · rw [if_neg hg] at h
      have hg2 : ¬ ((isPlainObject v && specifier.entryFields.isNone &&
          specifier.fields.isNone) = true) := by
        intro hc
        apply hg
        cases hv : isPlainObject v <;> cases hf : specifier.fields.isNone <;>
          cases he : specifier.entryFields.isNone <;> simp_all
      rw [if_neg hg2] at h
      split at h
      · simp only [Bind.bind, Except.bind] at h
        split at h
        · rename_i err heq
          cases h
          exact resolveNamespace_ne_unknownKind prev Hr _ _ _ _ _ _ _ heq
        · cases h
      · split at h
        · simp only [Bind.bind, Except.bind] at h
          split at h
          · rename_i err heq
            cases h
            exact resolveRecord_ne_unknownKind prev Hr Hd _ _ _ _ _ _ heq
          · cases h
        · exact resolveLeaf_ne_unknownKind metadataFrom specifier name v data metadata nm h

theorem doInitializeAux_ne_unknownKind (prev : Level)
    (Hr : ∀ metadataFrom fields input data metadata nm,
      prev.resolve metadataFrom fields input data metadata ≠
        .error (.unknownSpecifierKind nm))
    (Hd : ∀ fields data metadata nm,
      prev.doInitialize fields data metadata ≠ .error (.unknownSpecifierKind nm))
    (fields : List (String × Specifier)) (data metadata : Val) (nm : String) :
    doInitializeAux prev fields data metadata ≠ .error (.unknownSpecifierKind nm) := by
  simp only [doInitializeAux]
  refine foldlM_ne_error _ (.unknownSpecifierKind nm) ?_ fields (data, metadata)
  intro a x hstep
  obtain ⟨da, ma⟩ := a
  obtain ⟨n0, s0⟩ := x
  simp only [doInitializeField, Bind.bind, Except.bind] at hstep
  split at hstep
  · -- namespace
    split at hstep
    · -- initial = none
      split at hstep
      · rename_i err heq
        cases hstep
        cases setProp_error_eq heq
      · split at hstep
        · rename_i err heq
          cases hstep
          cases setProp_error_eq heq
        · split at hstep
          · rename_i err heq
            cases hstep
            exact Hd _ _ _ _ heq
          · cases hstep
    · -- initial = func
      split at hstep
      · rename_i err heq
        cases hstep
        cases setProp_error_eq heq
      · split at hstep
        · rename_i err heq
          cases hstep
          cases setProp_error_eq heq
        · split at hstep
          · rename_i err heq
            cases hstep
            exact Hd _ _ _ _ heq
          · cases hstep
    · -- initial = static: calling a non-function raises a TypeError
      simp at hstep
  · split at hstep
    · -- record
      split at hstep
      · -- record initializer present
        split at hstep
        · rename_i err heq
          cases hstep
          cases runInitializer_error_eq heq
        · split at hstep
          · rename_i err heq
            cases hstep
            revert heq
            refine foldlM_ne_error _ (.unknownSpecifierKind nm) ?_ _ _
            intro a2 x2 hstep2
            split at hstep2
            · rename_i err2 heq2
              cases hstep2
              exact Hd _ _ _ _ heq2
            · split at hstep2
              · rename_i err2 heq2
                cases hstep2
                exact Hr _ _ _ _ _ _ heq2
              · split at hstep2
                · rename_i err2 heq2
                  cases hstep2
                  cases setProp_error_eq heq2
                · split at hstep2
                  · rename_i err2 heq2
                    cases hstep2
                    cases setProp_error_eq heq2
                  · cases hstep2
          · split at hstep
            · rename_i err heq
              cases hstep
              cases setProp_error_eq heq
            · split at hstep
              · rename_i err heq
                cases hstep
                cases setProp_error_eq heq
              · cases hstep
      · -- no record initializer
        split at hstep
        · rename_i err heq
          cases hstep
          revert heq
          refine foldlM_ne_error _ (.unknownSpecifierKind nm) ?_ _ _
          intro a2 x2 hstep2
          split at hstep2
          · rename_i err2 heq2
            cases hstep2
            exact Hd _ _ _ _ heq2
          · split at hstep2
            · rename_i err2 heq2
              cases hstep2
              exact Hr _ _ _ _ _ _ heq2
            · split at hstep2
              · rename_i err2 heq2
                cases hstep2
                cases setProp_error_eq heq2
              · split at hstep2
                · rename_i err2 heq2
                  cases hstep2
                  cases setProp_error_eq heq2
                · cases hstep2
        · split at hstep
          · rename_i err heq
            cases hstep
            cases setProp_error_eq heq
          · split at hstep
            · rename_i err heq
              cases hstep
              cases setProp_error_eq heq
            · cases hstep
    · -- leaf
      split at hstep
      · rename_i err heq
        cases hstep
        cases runInitializer_error_eq heq
      · split at hstep
        · rename_i err heq
          cases hstep
          cases setProp_error_eq heq
        · split at hstep
          · rename_i err heq
            cases hstep
            cases setProp_error_eq heq
          · cases hstep

theorem resolveAux_ne_unknownKind (prev : Level)
    (Hr : ∀ metadataFrom fields input data metadata nm,
      prev.resolve metadataFrom fields input data metadata ≠
        .error (.unknownSpecifierKind nm))
    (Hd : ∀ fields data metadata nm,
      prev.doInitialize fields data metadata ≠ .error (.unknownSpecifierKind nm))
    (metadataFrom : MetadataValueFromType) (fields : List (String × Specifier))
    (input data metadata : Val) (nm : String) :
    resolveAux prev metadataFrom fields input data metadata ≠
      .error (.unknownSpecifierKind nm) := by
  simp only [resolveAux]
  refine foldlM_ne_error _ (.unknownSpecifierKind nm) ?_ (ownEntries input) (data, metadata)
  intro a x hstep
  exact resolveField_ne_unknownKind prev Hr Hd metadataFrom fields x.1 x.2 a.1 a.2 nm hstep

theorem levels_ne_unknownKind : ∀ N : Nat,
    (∀ metadataFrom fields input data metadata nm,
      (levels N).resolve metadataFrom fields input data metadata ≠
        .error (.unknownSpecifierKind nm)) ∧
    (∀ fields data metadata nm,
      (levels N).doInitialize fields data metadata ≠ .error (.unknownSpecifierKind nm)) := by
  intro N
  induction N with
  | zero =>
    constructor
    · intro _ _ _ _ _ _ h
      simp [levels] at h
    · intro _ _ _ _ h
      simp [levels] at h
  | succ n ih =>
    constructor
    · intro metadataFrom fields input data metadata nm
      rw [levels_succ_resolve]
      exact resolveAux_ne_unknownKind (levels n) ih.1 ih.2 metadataFrom fields input
        data metadata nm
    · intro fields data metadata nm
      rw [levels_succ_doInitialize]
      exact doInitializeAux_ne_unknownKind (levels n) ih.1 ih.2 fields data metadata nm

/-- C10: the unknown-kind-of-specifier branch of the resolver is dead code:
no invocation of `resolve` (with any provenance, spec, input or state) ever
returns that error, because its guard is the same condition as the preceding
not-a-namespace guard (the two conjunction orders are equal), which has
already thrown.  The second conjunct states the guard identity itself. -/
theorem C10_unknown_specifier_kind_unreachable :
    (∀ (metadataFrom : MetadataValueFromType) (fields : List (String × Specifier))
        (input data metadata : Val) (nm : String),
      resolve metadataFrom fields input data metadata ≠ .error (.unknownSpecifierKind nm)) ∧
    (∀ (v : Val) (spec : Specifier),
      (isPlainObject v && spec.fields.isNone && spec.entryFields.isNone) =
        (isPlainObject v && spec.entryFields.isNone && spec.fields.isNone)) := by
  constructor
  · intro metadataFrom fields input data metadata nm
    rw [resolve_def]
    exact resolveAux_ne_unknownKind (levels (listDepth fields))
      (levels_ne_unknownKind (listDepth fields)).1 (levels_ne_unknownKind (listDepth fields)).2
      metadataFrom fields input data metadata nm
  · intro v spec
    cases hb : isPlainObject v <;> cases hf : spec.fields.isNone <;>
      cases he : spec.entryFields.isNone <;> simp

/-! ### Claim C4: per-leaf provenance lifecycle -/

theorem resolveLeaf_ok_set_inv (spec : Specifier) (name : String) (v data metadata : Val)
    (out : Val × Val) (h : resolveLeaf .set spec name v data metadata = .ok out) :
    ∃ dl nl rv, data = .vobj dl ∧ getProp metadata name = .vobj nl ∧
      out = (.vobj (setEntry dl name rv),
        writeBack metadata name
          (.vobj (setEntry (setEntry nl "value" rv) "from" (.vstr "set")))) := by
  simp only [resolveLeaf, Bind.bind, Except.bind] at h
  split at h
  · cases h
  · split at h
    · cases h
    · rename_i data' hd
      split at h
      · cases h
      · rename_i node1 hn1
        split at h
        · cases h
        · rename_i node2 hn2
          cases h
          obtain ⟨dl, hdl, hd2⟩ := setProp_ok_obj hd
          obtain ⟨nl, hnl, hn12⟩ := setProp_ok_obj hn1
          obtain ⟨nl1, hnl1, hn22⟩ := setProp_ok_obj hn2
          subst hdl
          subst hn22
          rw [hn12] at hnl1
          injection hnl1 with h1
          subst h1
          refine ⟨dl, nl, getProp data' name, rfl, hnl, ?_⟩
          rw [hd2, getProp_setEntry_self]
          simp [MetadataValueFromType.toVal]

theorem leafFold_inv (prev : Level) (name : String) (spec : Specifier)
    (hf : spec.fields = none) (he : spec.entryFields = none) :
    ∀ (entries : List (String × Val)) (data metadata : Val) (out : Val × Val),
      List.foldlM
        (fun (acc : Val × Val) e =>
          resolveField prev .set [(name, spec)] e.1 e.2 acc.1 acc.2)
        (data, metadata) entries = .ok out →
      (getProp (getProp out.2 name) "initial" = getProp (getProp metadata name) "initial") ∧
      (entries = [] → out = (data, metadata)) ∧
      (entries ≠ [] → getProp (getProp out.2 name) "from" = .vstr "set") := by
  intro entries
  induction entries with
  | nil =>
    intro data metadata out h
    cases h
    exact ⟨rfl, fun _ => rfl, fun hc => absurd rfl hc⟩
  | cons e rest ih =>
    intro data metadata out h
    rw [List.foldlM_cons] at h
    cases hstep : resolveField prev .set [(name, spec)] e.1 e.2 data metadata with
    | error err => rw [hstep] at h; cases h
    | ok acc1 =>
      rw [hstep] at h
      simp only [Bind.bind, Except.bind] at h
      -- the key must be the single specifier's name
      have hkey : e.1 = name := by
        by_contra hne
        rw [resolveField_unknown prev .set [(name, spec)] e.1 e.2 data metadata
          (by simp [lookupField, Ne.symm hne])] at hstep
        cases hstep
      -- resolveField dispatches to the leaf pipeline
      have hleafstep : resolveLeaf .set spec name e.2 data metadata = .ok acc1 := by
        subst hkey
        obtain ⟨i, sh0, fx, va, mt, fs, efs⟩ := spec
        simp only [Specifier.fields] at hf
        simp only [Specifier.entryFields] at he
        subst hf
        subst he
        simp only [resolveField, lookupField, if_pos rfl, Specifier.fields,
          Specifier.entryFields, Option.isNone_none, Bool.and_true] at hstep
        cases hobj : isPlainObject e.2 with
        | true => rw [hobj] at hstep; simp at hstep
        | false =>
          rw [hobj] at hstep
          simpa using hstep
      obtain ⟨dl, nl, rv, hdl, hnl, hacc⟩ :=
        resolveLeaf_ok_set_inv spec name e.2 data metadata acc1 hleafstep
      have hmdnode : getProp acc1.2 name =
          .vobj (setEntry (setEntry nl "value" rv) "from" (.vstr "set")) := by
        rw [hacc]
        refine getProp_writeBack_self_any metadata name _ ?_
        cases metadata with
        | vobj ml => exact hasProp_of_getProp_vobj ml name nl hnl
        | vundef => cases hnl
        | vnull => cases hnl
        | vbool b => cases hnl
        | vnum n => cases hnl
        | vstr s => cases hnl
      have hinit1 : getProp (getProp acc1.2 name) "initial" =
          getProp (getProp metadata name) "initial" := by
        rw [hmdnode, hnl]
        rw [getProp_setEntry_ne _ "from" "initial" _ (by simp),
          getProp_setEntry_ne _ "value" "initial" _ (by simp)]
      have hfrom1 : getProp (getProp acc1.2 name) "from" = .vstr "set" := by
        rw [hmdnode]
        exact getProp_setEntry_self _ "from" _
      obtain ⟨ihInit, ihNil, ihCons⟩ := ih acc1.1 acc1.2 out (by
        cases acc1
        exact h)
      refine ⟨ihInit.trans hinit1, fun hc => absurd hc (by simp), fun _ => ?_⟩
      cases hrest : rest with
      | nil =>
        have hout := ihNil hrest
        rw [hout]
        exact hfrom1
      | cons r rs =>
        exact ihCons (by rw [hrest]; simp)

theorem resolve_ok_keys (metadataFrom : MetadataValueFromType)
    (fields : List (String × Specifier)) (input data metadata : Val) (out : Val × Val)
    (h : resolve metadataFrom fields input data metadata = .ok out) :
    ∀ e ∈ ownEntries input, (lookupField fields e.1).isSome = true := by
  intro e he
  rw [resolve_def] at h
  obtain ⟨a, c, hstep⟩ := foldlM_ok_of_mem _ (ownEntries input) (data, metadata) out h e he
  cases hlk : lookupField fields e.1 with
  | none =>
    rw [resolveField_unknown (levels (listDepth fields)) metadataFrom fields e.1 e.2
      a.1 a.2 hlk] at hstep
    cases hstep
  | some spec => rfl

theorem changesLeaf_inv (name : String) (spec : Specifier)
    (hf : spec.fields = none) (he : spec.entryFields = none) :
    ∀ (inputs : List Val) (st st' : ManagerState),
      changes [(name, spec)] inputs st = .ok st' →
      getProp (getProp st'.metadata name) "initial" =
        getProp (getProp st.metadata name) "initial" ∧
      getProp (getProp st'.metadata name) "from" =
        (if inputs.any (fun inp => hasProp inp name) then .vstr "set"
         else getProp (getProp st.metadata name) "from") := by
  intro inputs
  induction inputs with
  | nil =>
    intro st st' h
    cases h
    simp
  | cons inp rest ih =>
    intro st st' h
    simp only [changes, Bind.bind, Except.bind] at h
    cases hch : change [(name, spec)] inp st with
    | error e => rw [hch] at h; cases h
    | ok st1 =>
      rw [hch] at h
      have hrest := ih st1 st' h
      simp only [change, Except.map] at hch
      cases hres : resolve .set [(name, spec)] inp st.data st.metadata with
      | error e => rw [hres] at hch; cases hch
      | ok pair =>
        rw [hres] at hch
        cases hch
        have hfold : List.foldlM
            (fun (acc : Val × Val) e =>
              resolveField (levels (listDepth [(name, spec)])) .set [(name, spec)]
                e.1 e.2 acc.1 acc.2)
            (st.data, st.metadata) (ownEntries inp) = .ok pair := by
          rw [resolve_def] at hres
          exact hres
        obtain ⟨hInit, hNil, hCons⟩ := leafFold_inv (levels (listDepth [(name, spec)]))
          name spec hf he (ownEntries inp) st.data st.metadata pair hfold
        have hkeys := resolve_ok_keys .set [(name, spec)] inp st.data st.metadata pair hres
        by_cases hprop : hasProp inp name = true
        · -- the change touches the leaf: entries are non-empty
          have hne : ownEntries inp ≠ [] := by
            intro hnil
            cases inp with
            | vobj l =>
              have hl : l = [] := hnil
              subst hl
              simp [hasProp] at hprop
            | vundef => simp [hasProp] at hprop
            | vnull => simp [hasProp] at hprop
            | vbool b => simp [hasProp] at hprop
            | vnum n => simp [hasProp] at hprop
            | vstr s => simp [hasProp] at hprop
          have hfrom1 : getProp (getProp pair.2 name) "from" = .vstr "set" := hCons hne
          refine ⟨hrest.1.trans hInit, hrest.2.trans ?_⟩
          simp only [List.any_cons, hprop, Bool.true_or, if_true]
          split
          · rfl
          · exact hfrom1
        · -- the change does not touch the leaf: nothing can be resolved
          have hempty : ownEntries inp = [] := by
            cases hent : ownEntries inp with
            | nil => rfl
            | cons e es =>
              exfalso
              have hm : e ∈ ownEntries inp := by rw [hent]; exact List.mem_cons_self e es
              have hkey := hkeys e hm
              have hname : e.1 = name := by
                by_contra hne
                rw [show lookupField [(name, spec)] e.1 = none by
                  simp [lookupField, Ne.symm hne]] at hkey
                cases hkey
              cases inp with
              | vobj l =>
                apply hprop
                show (l.find? (fun p => p.1 = name)).isSome = true
                have hl : l = e :: es := hent
                subst hl
                rw [List.find?_cons_of_pos]
                · rfl
                · simp [hname]
              | vundef => cases hent
              | vnull => cases hent
              | vbool b => cases hent
              | vnum n => cases hent
              | vstr s => cases hent
          have hpair : pair = (st.data, st.metadata) := hNil hempty
          subst hpair
          refine ⟨hrest.1, hrest.2.trans ?_⟩
          simp only [List.any_cons, show hasProp inp name = false by simpa using hprop,
            Bool.false_or]

theorem createLeaf_inv (name : String) (spec : Specifier)
    (hf : spec.fields = none) (he : spec.entryFields = none) (st0 : ManagerState)
    (h : create [(name, spec)] = .ok st0) :
    ∃ v0, st0 = ⟨.vobj [(name, v0)], .vobj [(name, initMetadataField v0)]⟩ := by
  obtain ⟨i, sh0, fx, va, mt, fs, efs⟩ := spec
  simp only [Specifier.fields] at hf
  simp only [Specifier.entryFields] at he
  subst hf
  subst he
  simp only [create, initializeSpec, doInitialize_def, doInitializeAux, doInitializeField,
    Except.map, List.foldlM_cons, List.foldlM, Specifier.fields, Specifier.entryFields,
    Specifier.initial, Specifier.mapType, Bind.bind, Except.bind, setProp, setEntry,
    pure, Except.pure] at h
  cases hri : runInitializer i name (.vobj []) with
  | error e =>
    simp only [hri] at h
    cases h
  | ok v =>
    simp only [hri] at h
    cases mt with
    | none =>
      cases h
      exact ⟨v, rfl⟩
    | some m =>
      cases h
      exact ⟨runTypeMapper m v, rfl⟩

/-- C4: for a leaf setting, the metadata `from` equals `initial` exactly when
no successful `change` call since creation supplied that leaf's key (the
first change that resolves the leaf flips it to `set` and later changes keep
it there), the node's `initial` value is fixed at initialization time and
never overwritten by `change`, and `reset` is by definition a wholesale
re-initialization (`create`). -/
theorem C4_leaf_provenance (name : String) (spec : Specifier) (inputs : List Val)
    (st0 st : ManagerState)
    (hf : spec.fields = none) (he : spec.entryFields = none)
    (hcreate : create [(name, spec)] = .ok st0)
    (hchanges : changes [(name, spec)] inputs st0 = .ok st) :
    (getProp (getProp st.metadata name) "from" = .vstr "initial" ↔
      ∀ inp ∈ inputs, hasProp inp name = false) ∧
    getProp (getProp st.metadata name) "initial" =
      getProp (getProp st0.metadata name) "initial" ∧
    reset [(name, spec)] = create [(name, spec)] := by
  obtain ⟨v0, hst0⟩ := createLeaf_inv name spec hf he st0 hcreate
  obtain ⟨hInit, hFrom⟩ := changesLeaf_inv name spec hf he inputs st0 st hchanges
  refine ⟨?_, hInit, rfl⟩
  have hfrom0 : getProp (getProp st0.metadata name) "from" = .vstr "initial" := by
    rw [hst0]
    simp [getProp, initMetadataField, List.find?]
  constructor
  · intro hfrom inp hinp
    by_contra hprop
    have hany : inputs.any (fun i2 => hasProp i2 name) = true := by
      apply List.any_eq_true.mpr
      exact ⟨inp, hinp, by simpa using hprop⟩
    rw [hany] at hFrom
    rw [if_pos rfl] at hFrom
    rw [hfrom] at hFrom
    simp at hFrom
  · intro hall
    have hany : inputs.any (fun i2 => hasProp i2 name) = false := by
      rw [List.any_eq_false]
      intro inp hinp
      simp [hall inp hinp]
    rw [hany] at hFrom
    rw [if_neg (by simp)] at hFrom
    rw [hFrom]
    exact hfrom0

/-- The single-leaf spec of the C4 witness. -/
def c4Spec : List (String × Specifier) :=
  [("a", .mk (some (.func fun _ => .vstr "foo")) none none none none none none)]

theorem C4_leaf_provenance_witness :
    (getProp (getProp (Val.vobj [("a", .vobj [("type", .vstr "leaf"), ("from", .vstr "set"),
        ("value", .vstr "bar"), ("initial", .vstr "foo")])]) "a") "from" = .vstr "initial" ↔
      ∀ inp ∈ [Val.vobj [("a", .vstr "bar")]], hasProp inp "a" = false) ∧
    getProp (getProp (Val.vobj [("a", .vobj [("type", .vstr "leaf"), ("from", .vstr "set"),
        ("value", .vstr "bar"), ("initial", .vstr "foo")])]) "a") "initial" =
      getProp (getProp (Val.vobj [("a", initMetadataField (.vstr "foo"))]) "a") "initial" ∧
    reset c4Spec = create c4Spec :=
  C4_leaf_provenance "a"
    (.mk (some (.func fun _ => .vstr "foo")) none none none none none none)
    [.vobj [("a", .vstr "bar")]]
    ⟨.vobj [("a", .vstr "foo")], .vobj [("a", initMetadataField (.vstr "foo"))]⟩
    ⟨.vobj [("a", .vstr "bar")], .vobj [("a", .vobj [("type", .vstr "leaf"),
      ("from", .vstr "set"), ("value", .vstr "bar"), ("initial", .vstr "foo")])]⟩
    rfl rfl rfl rfl

/-! ### Claim C3: initializer output passes only through the type mapper -/

mutual

/-- Remove `fixup` and `validate` from every leaf specifier of a spec tree. -/
def stripLeafHooks : List (String × Specifier) → List (String × Specifier)
  | [] => []
  | (n, s) :: rest => (n, stripLeafHooksSpecifier s) :: stripLeafHooks rest

def stripLeafHooksSpecifier : Specifier → Specifier
  | .mk i sh _ _ mt none none => .mk i sh none none mt none none
  | .mk i sh fx va mt (some fs) efs =>
    .mk i sh fx va mt (some (stripLeafHooks fs)) (stripOptFields efs)
  | .mk i sh fx va mt none (some efs) =>
    .mk i sh fx va mt none (some (stripLeafHooks efs))

def stripOptFields : Option (List (String × Specifier)) → Option (List (String × Specifier))
  | none => none
  | some l => some (stripLeafHooks l)

end

mutual

/-- No record specifier (`entryFields`) anywhere in the spec tree. -/
def recordFreeB : List (String × Specifier) → Bool
  | [] => true
  | (_, s) :: rest => recordFreeSpecifierB s && recordFreeB rest

def recordFreeSpecifierB : Specifier → Bool
  | .mk _ _ _ _ _ fs efs => efs.isNone && recordFreeOptB fs

def recordFreeOptB : Option (List (String × Specifier)) → Bool
  | none => true
  | some l => recordFreeB l

end

mutual

theorem listDepth_strip : ∀ l : List (String × Specifier),
    listDepth (stripLeafHooks l) = listDepth l
  | [] => rfl
  | (n, s) :: rest => by
    simp only [stripLeafHooks, listDepth, depth_strip s, listDepth_strip rest]

theorem depth_strip : ∀ s : Specifier, (stripLeafHooksSpecifier s).depth = s.depth
  | .mk i sh fx va mt none none => rfl
  | .mk i sh fx va mt (some fs) efs => by
    simp only [stripLeafHooksSpecifier, Specifier.depth, optDepth_strip efs, optDepth,
      listDepth_strip fs]
  | .mk i sh fx va mt none (some efs) => by
    simp only [stripLeafHooksSpecifier, Specifier.depth, optDepth, listDepth_strip efs]

theorem optDepth_strip : ∀ o : Option (List (String × Specifier)),
    optDepth (stripOptFields o) = optDepth o
  | none => rfl
  | some l => by simp only [stripOptFields, optDepth, listDepth_strip l]

end

theorem doInitializeField_strip (prev : Level)
    (hprev : ∀ (fs : List (String × Specifier)) (d md : Val), recordFreeB fs = true →
      prev.doInitialize (stripLeafHooks fs) d md = prev.doInitialize fs d md)
    (acc : Val × Val) (nm : String) (s : Specifier) (hs : recordFreeSpecifierB s = true) :
    doInitializeField prev acc (nm, stripLeafHooksSpecifier s) =
      doInitializeField prev acc (nm, s) := by
  obtain ⟨i, sh, fx, va, mt, fs, efs⟩ := s
  simp only [recordFreeSpecifierB, Bool.and_eq_true, Option.isNone_iff_eq_none] at hs
  obtain ⟨hefs, hfs⟩ := hs
  subst hefs
  cases fs with
  | none => rfl
  | some nsf =>
    simp only [recordFreeOptB] at hfs
    cases i with
    | none =>
      simp only [stripLeafHooksSpecifier, stripOptFields, doInitializeField, Specifier.fields,
        Specifier.initial, Specifier.entryFields, Specifier.mapType, Bind.bind, Except.bind]
      rw [hprev nsf _ _ hfs]
    | some ini =>
      cases ini with
      | func f =>
        simp only [stripLeafHooksSpecifier, stripOptFields, doInitializeField, Specifier.fields,
          Specifier.initial, Specifier.entryFields, Specifier.mapType, Bind.bind, Except.bind]
        rw [hprev nsf _ _ hfs]
      | static v => rfl

theorem doInitializeAux_strip_at (prev : Level)
    (hprev : ∀ (fs : List (String × Specifier)) (d md : Val), recordFreeB fs = true →
      prev.doInitialize (stripLeafHooks fs) d md = prev.doInitialize fs d md) :
    ∀ (fields : List (String × Specifier)) (d md : Val), recordFreeB fields = true →
      doInitializeAux prev (stripLeafHooks fields) d md =
        doInitializeAux prev fields d md := by
  intro fields
  induction fields with
  | nil => intro d md _; rfl
  | cons hd rest ih =>
    intro d md hrf
    obtain ⟨nm, s⟩ := hd
    simp only [recordFreeB, Bool.and_eq_true] at hrf
    obtain ⟨hs, hrest⟩ := hrf
    simp only [doInitializeAux, stripLeafHooks]
    rw [List.foldlM_cons, List.foldlM_cons,
      doInitializeField_strip prev hprev (d, md) nm s hs]
    cases hstep : doInitializeField prev (d, md) (nm, s) with
    | error e => rfl
    | ok acc =>
      simp only [Bind.bind, Except.bind]
      exact ih acc.1 acc.2 hrest

theorem doInitialize_strip_levels : ∀ (N : Nat) (fields : List (String × Specifier))
    (d md : Val), recordFreeB fields = true →
    (levels N).doInitialize (stripLeafHooks fields) d md =
      (levels N).doInitialize fields d md := by
  intro N
  induction N with
  | zero => intro fields d md _; rfl
  | succ n ihn =>
    intro fields d md h
    rw [levels_succ_doInitialize]
    exact doInitializeAux_strip_at (levels n) (fun fs d' md' hf => ihn fs d' md' hf) fields d md h

/-- C3: during initialization a leaf initializer's output is committed after
passing only through the type mapper.  First conjunct: for any leaf defining
`initial` and `mapType` and arbitrary `fixup` and `validate`, the initialized
data and metadata carry exactly the type-mapped initializer output.  Second
conjunct: over any record-free spec, removing every leaf's `fixup` and
`validate` does not change initialization at all (so they are never
invoked); `reset` re-runs the same initialization. -/
theorem C3_initialization_skips_hooks :
    (∀ (name : String) (f : Unit → Val) (mtf : Val → Val) (sh : Option (Val → Val))
        (fx : Option (Val → Option FixupOut)) (va : Option (Val → Option (List String))),
      initializeSpec [(name, .mk (some (.func f)) sh fx va (some mtf) none none)] =
        .ok (.vobj [(name, runTypeMapper mtf (f ()))],
          .vobj [(name, initMetadataField (runTypeMapper mtf (f ())))])) ∧
    (∀ fields : List (String × Specifier), recordFreeB fields = true →
      initializeSpec (stripLeafHooks fields) = initializeSpec fields) := by
  constructor
  · intro name f mtf sh fx va
    rfl
  · intro fields h
    show (levels (listDepth (stripLeafHooks fields) + 1)).doInitialize (stripLeafHooks fields)
      (.vobj []) (.vobj []) = _
    rw [listDepth_strip]
    exact doInitialize_strip_levels (listDepth fields + 1) fields (.vobj []) (.vobj []) h

/-- The spec of the C3 witness: a leaf whose fixup and validate would reject
or rewrite everything, plus a nested namespace leaf. -/
def c3Spec : List (String × Specifier) :=
  [("a", .mk (some (.func fun _ => .vstr "bad")) none
      (some fun _ => some ⟨.vstr "fixed", ["m"]⟩)
      (some fun _ => some ["rejected"])
      (some fun w => match w with | .vstr t => .vstr (t ++ "!") | w => w) none none),
   ("ns", .mk none none none none none
      (some [("b", .mk (some (.func fun _ => .vnum 5)) none
        (some fun _ => some ⟨.vnum 0, []⟩) (some fun _ => some ["no"]) none none none)]) none)]

theorem C3_initialization_skips_hooks_witness :
    initializeSpec [("a", .mk (some (.func fun _ => .vstr "bad")) none
        (some fun _ => some ⟨.vstr "fixed", ["m"]⟩) (some fun _ => some ["rejected"])
        (some fun w => match w with | .vstr t => .vstr (t ++ "!") | w => w) none none)] =
      .ok (.vobj [("a", .vstr "bad!")], .vobj [("a", initMetadataField (.vstr "bad!"))]) ∧
    initializeSpec (stripLeafHooks c3Spec) = initializeSpec c3Spec :=
  ⟨by
    have h := C3_initialization_skips_hooks.1 "a" (fun _ => .vstr "bad")
      (fun w => match w with | .vstr t => .vstr (t ++ "!") | w => w) none
      (some fun _ => some ⟨.vstr "fixed", ["m"]⟩) (some fun _ => some ["rejected"])
    exact h,
   C3_initialization_skips_hooks.2 c3Spec rfl⟩

/-! ### C5: namespace seed semantics -/

/-- The C5 counterexample spec: namespace `a` whose own initializer seeds
`x` with `"seed"`, while the nested leaf `x` defines its own initializer
returning `"own"`. -/
def c5Spec : List (String × Specifier) :=
  [("a", .mk (some (.func fun _ => .vobj [("x", .vstr "seed")])) none none none none
      (some [("x", .mk (some (.func fun _ => .vstr "own")) none none none none none none)])
      none)]

/-- C5 (counterexample): the claim that a namespace field covered by the
namespace initializer's seed retains the seed's value in the initialized
data is false.  In `c5Spec` the seed covers `x` with `"seed"`, yet
initialization commits the leaf's own initializer output `"own"`:
`runInitializer` runs a function initializer unconditionally and falls back
to the seeded `data[name]` only when the leaf defines no initializer. -/
theorem C5_namespace_seed_counterexample :
    (initializeSpec c5Spec).map (fun dm => getProp (getProp dm.1 "a") "x") =
      .ok (.vstr "own") ∧ Val.vstr "own" ≠ .vstr "seed" :=
  ⟨rfl, Val.ne_of_beq_false rfl⟩

/-- The namespace data of `C5_namespace_seed_amended` after initialization:
the seed object, with `x` overwritten by the leaf initializer's output and
`y` set to the seed's own value for `y` (or `undefined`). -/
def c5InnerData (seed : List (String × Val)) (f : Unit → Val) : Val :=
  .vobj (setEntry (setEntry seed "x" (f ())) "y"
    (nullish (getProp (.vobj (setEntry seed "x" (f ()))) "y") .vundef))

/-- The namespace `fields` metadata of `C5_namespace_seed_amended`:
seed-derived nodes, with `x` and `y` overwritten by fresh leaf metadata. -/
def c5InnerMeta (seed : List (String × Val)) (f : Unit → Val) : Val :=
  .vobj (setEntry (setEntry (seed.map fun e =>
      (e.1, Val.vobj [("value", e.2), ("from", .vstr "initial"), ("initial", e.2)]))
    "x" (initMetadataField (f ()))) "y"
    (initMetadataField (nullish (getProp (.vobj (setEntry seed "x" (f ()))) "y") .vundef)))

/-- C5 (amended): a namespace's initializer does seed the namespace data and
the recursion into its fields does use that seed as base, but a nested
leaf's own initializer always runs and overrides the seed; only a leaf
without an initializer of its own retains the seed's value
(`data[name] ?? undefined`).  Stated for a namespace `a` with an arbitrary
object seed, a leaf `x` carrying its own initializer `f` and a leaf `y`
without one: initialization succeeds, `x` is committed as `f ()` whether or
not the seed covers it, and `y` is committed as the seed's value for `y`
(`undefined` when uncovered). -/
theorem C5_namespace_seed_amended (seed : List (String × Val)) (f : Unit → Val) :
    initializeSpec [("a", .mk (some (.func fun _ => .vobj seed)) none none none none
        (some [("x", .mk (some (.func f)) none none none none none none),
               ("y", .mk none none none none none none none)]) none)] =
      .ok (.vobj [("a", c5InnerData seed f)],
           .vobj [("a", .vobj [("fields", c5InnerMeta seed f)])]) ∧
    getProp (c5InnerData seed f) "x" = f () ∧
    getProp (c5InnerData seed f) "y" = nullish (getProp (.vobj seed) "y") .vundef := by
  refine ⟨rfl, ?_, ?_⟩
  · simp only [c5InnerData]
    rw [getProp_setEntry_ne _ _ _ _ (by decide : ("x" : String) ≠ "y")]
    exact getProp_setEntry_self seed "x" (f ())
  · simp only [c5InnerData]
    rw [getProp_setEntry_self,
      getProp_setEntry_ne seed "x" "y" (f ()) (by decide : ("y" : String) ≠ "x")]

/-! ### C2: original() invariance -/

/-- The C2 counterexample spec: a record specifier `r` whose initializer
preloads one entry `e`, with a single leaf `x` per entry. -/
def c2Spec : List (String × Specifier) :=
  [("r", .mk (some (.func fun _ => .vobj [("e", .vobj [])])) none none none none none
      (some [("x", .mk (some (.func fun _ => .vnum 1)) none none none none none none)]))]

/-- The manager state created from `c2Spec` (creation succeeds, as the
first conjunct of the counterexample certifies). -/
def c2St : ManagerState :=
  match create c2Spec with
  | .ok st => st
  | .error _ => ⟨.vundef, .vundef⟩

/-- C2 (counterexample): `original()` does not return the creation-time data
tree for specs containing record specifiers, even before any `change`.
`metadataToData` takes the stored `initial` at every node without `fields`;
a record node's `initial` is a snapshot of the record's per-entry *metadata*
trees (`initMetadataRecord`), not its data, so the projection returns
metadata-shaped objects where the data tree has plain values. -/
theorem C2_original_invariance_counterexample :
    create c2Spec = .ok c2St ∧ original c2St ≠ c2St.data :=
  ⟨rfl, Val.ne_of_beq_false rfl⟩

/-- Whether a spec level contains the given name. -/
def hasKeyB (nm : String) : List (String × Specifier) → Bool
  | [] => false
  | (k, _) :: rest => k == nm || hasKeyB nm rest

/-- Whether the names of a spec level are pairwise distinct (a JavaScript
object literal cannot repeat keys; the association-list embedding can). -/
def nodupKeysB : List (String × Specifier) → Bool
  | [] => true
  | (nm, _) :: rest => !(hasKeyB nm rest) && nodupKeysB rest

mutual

/-- A plain spec: leaves and seedless namespaces only — no record
specifiers (`entryFields`), no namespace-level `initial`, and no repeated
names at any namespace level. -/
def plainSpecListB : List (String × Specifier) → Bool
  | [] => true
  | (_, s) :: rest => plainSpecifierB s && plainSpecListB rest

def plainSpecifierB : Specifier → Bool
  | .mk i _ _ _ _ fs efs => efs.isNone && plainOptB i fs

def plainOptB : Option Initializer → Option (List (String × Specifier)) → Bool
  | _, none => true
  | i, some nsFields => i.isNone && nodupKeysB nsFields && plainSpecListB nsFields

end

/-- Every name of the spec level is absent from the metadata object. -/
def namesFreshB (md : Val) : List (String × Specifier) → Bool
  | [] => true
  | (nm, _) :: rest => !(hasProp md nm) && namesFreshB md rest

theorem namesFreshB_nil : ∀ fs : List (String × Specifier),
    namesFreshB (.vobj []) fs = true
  | [] => rfl
  | (nm, _) :: rest => by
    simp only [namesFreshB, namesFreshB_nil rest, Bool.and_true]
    rfl

theorem getProp_eq_vundef_of_not_hasProp (v : Val) (k : String) (h : hasProp v k = false) :
    getProp v k = .vundef := by
  cases v with
  | vobj l =>
    have h' : (l.find? (fun e => e.1 = k)).isSome = false := h
    show (match l.find? (fun e => e.1 = k) with | some e => e.2 | none => Val.vundef) = _
    cases hf : l.find? (fun e => e.1 = k) with
    | none => rfl
    | some e => rw [hf] at h'; cases h'
  | vundef => rfl
  | vnull => rfl
  | vbool b => rfl
  | vnum n => rfl
  | vstr s => rfl

theorem setEntry_setEntry (l : List (String × Val)) (k : String) (v w : Val) :
    setEntry (setEntry l k v) k w = setEntry l k w := by
  induction l with
  | nil => simp [setEntry]
  | cons hd tl ih =>
    obtain ⟨k', v'⟩ := hd
    by_cases hk : k' = k
    · subst hk
      simp [setEntry]
    · simp [setEntry, hk, ih]

theorem namesFreshB_setEntry (mdl : List (String × Val)) (nm : String) (node : Val)
    (fs : List (String × Specifier)) (hk : hasKeyB nm fs = false)
    (hf : namesFreshB (.vobj mdl) fs = true) :
    namesFreshB (.vobj (setEntry mdl nm node)) fs = true := by
  induction fs with
  | nil => rfl
  | cons hd rest ih =>
    obtain ⟨k, s⟩ := hd
    simp only [hasKeyB, Bool.or_eq_false_iff, beq_eq_false_iff_ne] at hk
    simp only [namesFreshB, Bool.and_eq_true, Bool.not_eq_true'] at hf ⊢
    refine ⟨?_, ih hk.2 hf.2⟩
    rw [hasProp_setEntry_ne mdl nm k node hk.1]
    exact hf.1

theorem plain_lookup (fields : List (String × Specifier)) (nm : String) (s : Specifier)
    (hp : plainSpecListB fields = true) (hlk : lookupField fields nm = some s) :
    plainSpecifierB s = true := by
  induction fields with
  | nil => cases hlk
  | cons hd rest ih =>
    obtain ⟨k, s'⟩ := hd
    simp only [plainSpecListB, Bool.and_eq_true] at hp
    simp only [lookupField] at hlk
    by_cases hk : k = nm
    · rw [if_pos hk] at hlk
      cases hlk
      exact hp.1
    · rw [if_neg hk] at hlk
      exact ih hp.2 hlk

theorem nullish_vundef (b : Val) : nullish .vundef b = b := rfl

theorem seedFieldMetadata_nil : seedFieldMetadata (.vobj []) = .vobj [] := rfl

theorem projNode_initMetadataField (v : Val) : projNode (initMetadataField v) = v := rfl

theorem projNode_fields_obj (il : List (String × Val)) :
    projNode (.vobj [("fields", Val.vobj il)]) = .vobj (projEntries il) := by
  have hg : getProp (.vobj [("fields", Val.vobj il)]) "fields" = .vobj il := rfl
  simp only [projNode, hg, truthy, if_true, metadataToData_vobj]

theorem doInitializeField_proj (prev : Level)
    (hprev : ∀ (fs : List (String × Specifier)) (w : Val × Val),
      plainSpecListB fs = true → nodupKeysB fs = true →
      prev.doInitialize fs (.vobj []) (.vobj []) = .ok w →
      ∃ il : List (String × Val), w.2 = .vobj il ∧ w.1 = .vobj (projEntries il))
    (mdl : List (String × Val)) (nm : String) (s : Specifier)
    (hs : plainSpecifierB s = true) (hfresh : hasProp (.vobj mdl) nm = false)
    (acc2 : Val × Val)
    (hstep : doInitializeField prev (.vobj (projEntries mdl), .vobj mdl) (nm, s) = .ok acc2) :
    ∃ node : Val,
      acc2 = (.vobj (projEntries (setEntry mdl nm node)), .vobj (setEntry mdl nm node)) := by
  obtain ⟨i, sh0, fx, va, mt, fs, efs⟩ := s
  simp only [plainSpecifierB, Bool.and_eq_true, Option.isNone_iff_eq_none] at hs
  obtain ⟨hefs, hopt⟩ := hs
  subst hefs
  have hfp : hasProp (.vobj (projEntries mdl)) nm = false := by
    rw [hasProp_projEntries]; exact hfresh
  have hgp : getProp (.vobj (projEntries mdl)) nm = .vundef :=
    getProp_eq_vundef_of_not_hasProp _ _ hfp
  have hgm : getProp (.vobj mdl) nm = .vundef :=
    getProp_eq_vundef_of_not_hasProp _ _ hfresh
  cases fs with
  | none =>
    cases hri : runInitializer i nm (.vobj (projEntries mdl)) with
    | error e =>
      simp only [doInitializeField, Specifier.fields, Specifier.entryFields, Specifier.initial,
        Specifier.mapType, hri, Bind.bind, Except.bind] at hstep
      cases hstep
    | ok v =>
      cases mt with
      | none =>
        simp only [doInitializeField, Specifier.fields, Specifier.entryFields, Specifier.initial,
          Specifier.mapType, hri, Bind.bind, Except.bind, setProp_vobj] at hstep
        cases hstep
        refine ⟨initMetadataField v, ?_⟩
        rw [projEntries_setEntry, projNode_initMetadataField]
      | some mapType =>
        simp only [doInitializeField, Specifier.fields, Specifier.entryFields, Specifier.initial,
          Specifier.mapType, hri, Bind.bind, Except.bind, setProp_vobj] at hstep
        cases hstep
        refine ⟨initMetadataField (runTypeMapper mapType v), ?_⟩
        rw [projEntries_setEntry, projNode_initMetadataField]
  | some nsf =>
    simp only [plainOptB, Bool.and_eq_true, Option.isNone_iff_eq_none] at hopt
    obtain ⟨⟨hi, hnodup⟩, hplain⟩ := hopt
    subst hi
    simp only [doInitializeField, Specifier.fields, Specifier.initial, Bind.bind,
      Except.bind, hgp, hgm, nullish_vundef, seedFieldMetadata_nil, setProp_vobj] at hstep
    cases hinner : prev.doInitialize nsf (.vobj []) (.vobj []) with
    | error e =>
      rw [show getProp (.vobj [("fields", Val.vobj [])]) "fields" = .vobj [] from rfl,
        hinner] at hstep
      cases hstep
    | ok w =>
      obtain ⟨d', mdf'⟩ := w
      obtain ⟨il, hw2, hw1⟩ := hprev nsf (d', mdf') hplain hnodup hinner
      simp only at hw2 hw1
      subst hw2
      subst hw1
      rw [show getProp (.vobj [("fields", Val.vobj [])]) "fields" = .vobj [] from rfl,
        hinner] at hstep
      simp only [Bind.bind, Except.bind] at hstep
      cases hstep
      refine ⟨.vobj [("fields", Val.vobj il)], ?_⟩
      rw [show writeBack (.vobj [("fields", Val.vobj [])]) "fields" (.vobj il) =
          .vobj [("fields", Val.vobj il)] from rfl]
      rw [writeBack_of_hasProp _ _ _ (hasProp_setEntry_self _ _ _),
        writeBack_of_hasProp _ _ _ (hasProp_setEntry_self _ _ _),
        setEntry_setEntry, setEntry_setEntry,
        projEntries_setEntry, projNode_fields_obj]

theorem doInitializeAux_proj (prev : Level)
    (hprev : ∀ (fs : List (String × Specifier)) (w : Val × Val),
      plainSpecListB fs = true → nodupKeysB fs = true →
      prev.doInitialize fs (.vobj []) (.vobj []) = .ok w →
      ∃ il : List (String × Val), w.2 = .vobj il ∧ w.1 = .vobj (projEntries il)) :
    ∀ (fields : List (String × Specifier)) (mdl : List (String × Val)) (w : Val × Val),
      plainSpecListB fields = true → nodupKeysB fields = true →
      namesFreshB (.vobj mdl) fields = true →
      doInitializeAux prev fields (.vobj (projEntries mdl)) (.vobj mdl) = .ok w →
      ∃ mdl', w.2 = .vobj mdl' ∧ w.1 = .vobj (projEntries mdl') := by
  intro fields
  induction fields with
  | nil =>
    intro mdl w _ _ _ h
    cases h
    exact ⟨mdl, rfl, rfl⟩
  | cons hd rest ih =>
    intro mdl w hplain hnodup hfresh h
    obtain ⟨nm, s⟩ := hd
    simp only [plainSpecListB, Bool.and_eq_true] at hplain
    simp only [nodupKeysB, Bool.and_eq_true, Bool.not_eq_true'] at hnodup
    simp only [namesFreshB, Bool.and_eq_true, Bool.not_eq_true'] at hfresh
    rw [show doInitializeAux prev ((nm, s) :: rest) (.vobj (projEntries mdl)) (.vobj mdl) =
      List.foldlM (doInitializeField prev) ((Val.vobj (projEntries mdl), Val.vobj mdl))
        ((nm, s) :: rest) from rfl, List.foldlM_cons] at h
    cases hstep : doInitializeField prev (.vobj (projEntries mdl), .vobj mdl) (nm, s) with
    | error e => rw [hstep] at h; cases h
    | ok acc2 =>
      rw [hstep] at h
      simp only [Bind.bind, Except.bind] at h
      obtain ⟨node, hacc⟩ := doInitializeField_proj prev hprev mdl nm s hplain.1 hfresh.1 acc2 hstep
      subst hacc
      exact ih (setEntry mdl nm node) w hplain.2 hnodup.2
        (namesFreshB_setEntry mdl nm node rest hnodup.1 hfresh.2) h

theorem doInitialize_proj_levels : ∀ (N : Nat) (fields : List (String × Specifier)) (w : Val × Val),
    plainSpecListB fields = true → nodupKeysB fields = true →
    (levels N).doInitialize fields (.vobj []) (.vobj []) = .ok w →
    ∃ il : List (String × Val), w.2 = .vobj il ∧ w.1 = .vobj (projEntries il) := by
  intro N
  induction N with
  | zero => intro fields w _ _ h; cases h
  | succ n ihn =>
    intro fields w hplain hnodup h
    rw [levels_succ_doInitialize] at h
    exact doInitializeAux_proj (levels n) ihn fields [] w hplain hnodup (namesFreshB_nil fields) h

theorem resolveNamespace_nonobj_noshorthand (prev : Level) (metadataFrom : MetadataValueFromType)
    (i : Option Initializer) (fx : Option (Val → Option FixupOut))
    (va : Option (Val → Option (List String))) (mt : Option (Val → Val))
    (nsf : List (String × Specifier)) (efs : Option (List (String × Specifier)))
    (v : Val) (hobj : isPlainObject v = false) (path : String) (dataNode mdNode : Val)
    (out : Val × Val)
    (h : resolveNamespace prev metadataFrom (.mk i none fx va mt (some nsf) efs)
      v path dataNode mdNode = .ok out) : False := by
  have hexp : resolveNamespace prev metadataFrom (.mk i none fx va mt (some nsf) efs)
      v path dataNode mdNode = .error (.shorthandNonObject path v) := by
    cases v with
    | vobj l => simp [isPlainObject] at hobj
    | vundef => rfl
    | vnull => rfl
    | vbool b => rfl
    | vnum n => rfl
    | vstr s => rfl
  rw [hexp] at h
  cases h

theorem resolveNamespace_nonobj_ok (prev : Level) (metadataFrom : MetadataValueFromType)
    (i : Option Initializer) (shfn : Val → Val) (fx : Option (Val → Option FixupOut))
    (va : Option (Val → Option (List String))) (mt : Option (Val → Val))
    (nsf : List (String × Specifier)) (efs : Option (List (String × Specifier)))
    (v : Val) (hobj : isPlainObject v = false) (path : String) (dataNode mdNode : Val)
    (out : Val × Val)
    (h : resolveNamespace prev metadataFrom (.mk i (some shfn) fx va mt (some nsf) efs)
      v path dataNode mdNode = .ok out) :
    ∃ dn mdfn, prev.resolve metadataFrom nsf (shfn v) dataNode (getProp mdNode "fields") =
        .ok (dn, mdfn) ∧ out = (dn, writeBack mdNode "fields" mdfn) := by
  have hexp : resolveNamespace prev metadataFrom (.mk i (some shfn) fx va mt (some nsf) efs)
      v path dataNode mdNode =
      (do
        let p ← prev.resolve metadataFrom nsf (shfn v) dataNode (getProp mdNode "fields")
        .ok (p.1, writeBack mdNode "fields" p.2)) := by
    cases v with
    | vobj l => simp [isPlainObject] at hobj
    | vundef => rfl
    | vnull => rfl
    | vbool b => rfl
    | vnum n => rfl
    | vstr s => rfl
  rw [hexp] at h
  cases hres : prev.resolve metadataFrom nsf (shfn v) dataNode (getProp mdNode "fields") with
  | error e =>
    simp only [hres, Bind.bind, Except.bind] at h
    cases h
  | ok p =>
    obtain ⟨dn, mdfn⟩ := p
    simp only [hres, Bind.bind, Except.bind] at h
    cases h
    exact ⟨dn, mdfn, rfl, rfl⟩

theorem resolveNamespace_ok_inv (prev : Level) (metadataFrom : MetadataValueFromType)
    (i : Option Initializer) (sh0 : Option (Val → Val)) (fx : Option (Val → Option FixupOut))
    (va : Option (Val → Option (List String))) (mt : Option (Val → Val))
    (nsf : List (String × Specifier)) (efs : Option (List (String × Specifier)))
    (v : Val) (path : String) (dataNode mdNode : Val) (out : Val × Val)
    (h : resolveNamespace prev metadataFrom (.mk i sh0 fx va mt (some nsf) efs)
      v path dataNode mdNode = .ok out) :
    ∃ lh dn mdfn, prev.resolve metadataFrom nsf lh dataNode (getProp mdNode "fields") =
        .ok (dn, mdfn) ∧ out = (dn, writeBack mdNode "fields" mdfn) := by
  cases hobj : isPlainObject v with
  | true =>
    cases v with
    | vobj sub =>
      obtain ⟨dn, mdfn, hres, hout⟩ := resolveNamespace_obj_ok prev metadataFrom i sh0 fx va mt
        nsf efs sub path dataNode mdNode out h
      exact ⟨.vobj sub, dn, mdfn, hres, hout⟩
    | vundef => cases hobj
    | vnull => cases hobj
    | vbool b => cases hobj
    | vnum n => cases hobj
    | vstr s => cases hobj
  | false =>
    cases sh0 with
    | none =>
      exact (resolveNamespace_nonobj_noshorthand prev metadataFrom i fx va mt nsf efs v hobj
        path dataNode mdNode out h).elim
    | some shfn =>
      obtain ⟨dn, mdfn, hres, hout⟩ := resolveNamespace_nonobj_ok prev metadataFrom i shfn fx va
        mt nsf efs v hobj path dataNode mdNode out h
      exact ⟨shfn v, dn, mdfn, hres, hout⟩

theorem resolveField_leaf_ok (prev : Level) (metadataFrom : MetadataValueFromType)
    (fields : List (String × Specifier)) (name : String) (spec : Specifier)
    (v data metadata : Val) (acc : Val × Val)
    (hlk : lookupField fields name = some spec)
    (hf : spec.fields = none) (he : spec.entryFields = none)
    (h : resolveField prev metadataFrom fields name v data metadata = .ok acc) :
    resolveLeaf metadataFrom spec name v data metadata = .ok acc := by
  obtain ⟨i, sh0, fx, va, mt, fs, efs⟩ := spec
  simp only [Specifier.fields] at hf
  simp only [Specifier.entryFields] at he
  subst hf
  subst he
  simp only [resolveField, hlk, Specifier.fields, Specifier.entryFields, Option.isNone_none,
    Bool.and_true] at h
  cases hobj : isPlainObject v with
  | true => rw [hobj] at h; simp at h
  | false =>
    rw [hobj] at h
    simpa using h

theorem projNode_writeBack_fields (node mdfn : Val)
    (hm : metadataToData mdfn = metadataToData (getProp node "fields"))
    (ht : truthy mdfn = truthy (getProp node "fields")) :
    projNode (writeBack node "fields" mdfn) = projNode node := by
  cases node with
  | vobj nl =>
    by_cases hp : hasProp (Val.vobj nl) "fields" = true
    · rw [writeBack_of_hasProp nl "fields" mdfn hp]
      simp only [projNode, getProp_setEntry_self,
        getProp_setEntry_ne nl "fields" "initial" mdfn (by decide)]
      rw [ht, hm]
    · rw [writeBack_of_not_hasProp _ "fields" mdfn
        (by simp only [Bool.not_eq_true] at hp; exact hp)]
  | vundef => rfl
  | vnull => rfl
  | vbool b => rfl
  | vnum n => rfl
  | vstr s => rfl

theorem metadataToData_writeBack_projNode (md : Val) (nm : String) (newnode : Val)
    (hpn : projNode newnode = projNode (getProp md nm)) :
    metadataToData (writeBack md nm newnode) = metadataToData md ∧
      truthy (writeBack md nm newnode) = truthy md := by
  cases md with
  | vobj mdl =>
    by_cases hp : hasProp (Val.vobj mdl) nm = true
    · rw [writeBack_of_hasProp mdl nm newnode hp]
      refine ⟨?_, rfl⟩
      rw [metadataToData_vobj, metadataToData_vobj, projEntries_setEntry, hpn,
        ← getProp_projEntries mdl nm hp,
        setEntry_getProp_self (projEntries mdl) nm (by rw [hasProp_projEntries]; exact hp)]
    · rw [writeBack_of_not_hasProp _ nm newnode
        (by simp only [Bool.not_eq_true] at hp; exact hp)]
      exact ⟨rfl, rfl⟩
  | vundef => exact ⟨rfl, rfl⟩
  | vnull => exact ⟨rfl, rfl⟩
  | vbool b => exact ⟨rfl, rfl⟩
  | vnum n => exact ⟨rfl, rfl⟩
  | vstr s => exact ⟨rfl, rfl⟩

theorem resolveField_proj (prev : Level)
    (hprev : ∀ (fs : List (String × Specifier)) (inp d md : Val) (w : Val × Val),
      plainSpecListB fs = true → prev.resolve .set fs inp d md = .ok w →
      metadataToData w.2 = metadataToData md ∧ truthy w.2 = truthy md)
    (fields : List (String × Specifier)) (nm : String) (v d md : Val) (acc : Val × Val)
    (hplain : plainSpecListB fields = true)
    (h : resolveField prev .set fields nm v d md = .ok acc) :
    metadataToData acc.2 = metadataToData md ∧ truthy acc.2 = truthy md := by
  cases hlk : lookupField fields nm with
  | none => rw [resolveField_unknown prev .set fields nm v d md hlk] at h; cases h
  | some spec =>
    have hps : plainSpecifierB spec = true := plain_lookup fields nm spec hplain hlk
    obtain ⟨i, sh0, fx, va, mt, fs, efs⟩ := spec
    simp only [plainSpecifierB, Bool.and_eq_true, Option.isNone_iff_eq_none] at hps
    obtain ⟨hefs, hopt⟩ := hps
    subst hefs
    cases fs with
    | some nsf =>
      simp only [plainOptB, Bool.and_eq_true] at hopt
      obtain ⟨_, hplainNsf⟩ := hopt
      obtain ⟨p, hns, hacc⟩ := resolveField_ns_ok prev .set fields nm
        (.mk i sh0 fx va mt (some nsf) none) nsf v d md acc hlk rfl h
      obtain ⟨lh, dn, mdfn, hres, hout⟩ := resolveNamespace_ok_inv prev .set i sh0 fx va mt
        nsf none v nm (getProp d nm) (getProp md nm) p hns
      have hih := hprev nsf lh (getProp d nm) (getProp (getProp md nm) "fields") (dn, mdfn)
        hplainNsf hres
      subst hout
      subst hacc
      exact metadataToData_writeBack_projNode md nm _
        (projNode_writeBack_fields (getProp md nm) mdfn hih.1 hih.2)
    | none =>
      have hleaf := resolveField_leaf_ok prev .set fields nm (.mk i sh0 fx va mt none none)
        v d md acc hlk rfl rfl h
      obtain ⟨dl, nl, rv, hdl, hnl, hacc⟩ := resolveLeaf_ok_set_inv _ nm v d md acc hleaf
      subst hacc
      refine metadataToData_writeBack_projNode md nm _ ?_
      rw [hnl]
      rw [projNode_setEntry_other (setEntry nl "value" rv) "from" (.vstr "set")
          (by decide) (by decide),
        projNode_setEntry_other nl "value" rv (by decide) (by decide)]

theorem resolveAux_proj (prev : Level)
    (hprev : ∀ (fs : List (String × Specifier)) (inp d md : Val) (w : Val × Val),
      plainSpecListB fs = true → prev.resolve .set fs inp d md = .ok w →
      metadataToData w.2 = metadataToData md ∧ truthy w.2 = truthy md) :
    ∀ (entries : List (String × Val)) (fields : List (String × Specifier)) (d md : Val)
      (w : Val × Val), plainSpecListB fields = true →
      List.foldlM (fun (acc : Val × Val) e => resolveField prev .set fields e.1 e.2 acc.1 acc.2)
        (d, md) entries = .ok w →
      metadataToData w.2 = metadataToData md ∧ truthy w.2 = truthy md := by
  intro entries
  induction entries with
  | nil =>
    intro fields d md w _ h
    cases h
    exact ⟨rfl, rfl⟩
  | cons e rest ih =>
    intro fields d md w hplain h
    rw [List.foldlM_cons] at h
    cases hstep : resolveField prev .set fields e.1 e.2 d md with
    | error err => rw [hstep] at h; cases h
    | ok acc =>
      rw [hstep] at h
      simp only [Bind.bind, Except.bind] at h
      have h1 := resolveField_proj prev hprev fields e.1 e.2 d md acc hplain hstep
      have h2 := ih fields acc.1 acc.2 w hplain (by cases acc; exact h)
      exact ⟨h2.1.trans h1.1, h2.2.trans h1.2⟩

theorem resolve_set_proj_levels : ∀ (N : Nat) (fields : List (String × Specifier))
    (inp d md : Val) (w : Val × Val), plainSpecListB fields = true →
    (levels N).resolve .set fields inp d md = .ok w →
    metadataToData w.2 = metadataToData md ∧ truthy w.2 = truthy md := by
  intro N
  induction N with
  | zero => intro fields inp d md w _ h; cases h
  | succ n ihn =>
    intro fields inp d md w hplain h
    rw [levels_succ_resolve] at h
    exact resolveAux_proj (levels n) (fun fs inp' d' md' w' hp hr => ihn fs inp' d' md' w' hp hr)
      (ownEntries inp) fields d md w hplain h

theorem changes_proj (fields : List (String × Specifier)) (hplain : plainSpecListB fields = true) :
    ∀ (inputs : List Val) (st st' : ManagerState),
      changes fields inputs st = .ok st' →
      metadataToData st'.metadata = metadataToData st.metadata := by
  intro inputs
  induction inputs with
  | nil =>
    intro st st' h
    cases h
    rfl
  | cons inp rest ih =>
    intro st st' h
    simp only [changes, Bind.bind, Except.bind] at h
    cases hc : change fields inp st with
    | error e => rw [hc] at h; cases h
    | ok st1 =>
      rw [hc] at h
      have h1 : metadataToData st1.metadata = metadataToData st.metadata := by
        simp only [change] at hc
        cases hres : resolve .set fields inp st.data st.metadata with
        | error e => rw [hres] at hc; cases hc
        | ok w =>
          rw [hres] at hc
          simp only [Except.map] at hc
          cases hc
          exact (resolve_set_proj_levels (listDepth fields + 1) fields inp st.data st.metadata
            w hplain hres).1
      exact (ih st1 st' h).trans h1

/-- C2 (amended): over a plain spec — leaves and seedless namespaces only,
with no record specifiers and no repeated names — `original()` does return
the creation-time data tree, before and after every successful sequence of
`change` calls: initialization establishes `metadataToData metadata = data`,
and a `from = set` resolution never changes the projection (a leaf commit
rewrites only `value` and `from` beside the untouched `initial`; namespace
recursion rewrites only the `fields` subtree, whose projection is preserved
level by level).  For record specifiers the property is false (see the
counterexample): a record node's `initial` snapshots per-entry metadata
trees, not data. -/
theorem C2_original_invariance_amended (fields : List (String × Specifier))
    (inputs : List Val) (st0 st : ManagerState)
    (hplain : plainSpecListB fields = true) (hnodup : nodupKeysB fields = true)
    (hcreate : create fields = .ok st0)
    (hchanges : changes fields inputs st0 = .ok st) :
    original st = st0.data := by
  cases hi : initializeSpec fields with
  | error e =>
    rw [show create fields = Except.error e from by simp [create, hi, Except.map]] at hcreate
    cases hcreate
  | ok p =>
    rw [show create fields = Except.ok (⟨p.1, p.2⟩ : ManagerState) from by
      simp [create, hi, Except.map]] at hcreate
    cases hcreate
    obtain ⟨il, hp2, hp1⟩ := doInitialize_proj_levels (listDepth fields + 1) fields p
      hplain hnodup hi
    have hch := changes_proj fields hplain inputs _ st hchanges
    show metadataToData st.metadata = p.1
    rw [hch]
    show metadataToData p.2 = p.1
    rw [hp2, metadataToData_vobj, hp1]

/-- The concrete plain spec of the C2 witness: a namespace `a` with one
initialized leaf `x`. -/
def c2PlainSpec : List (String × Specifier) :=
  [("a", .mk none none none none none
      (some [("x", .mk (some (.func fun _ => .vnum 1)) none none none none none none)]) none)]

/-- The C2 witness's change input: set `a.x` to `5`. -/
def c2Input : Val := .vobj [("a", .vobj [("x", .vnum 5)])]

/-- The state created from `c2PlainSpec`. -/
def c2St0 : ManagerState :=
  match create c2PlainSpec with
  | .ok st => st
  | .error _ => ⟨.vundef, .vundef⟩

/-- The state after changing `a.x` to `5`. -/
def c2St1 : ManagerState :=
  match changes c2PlainSpec [c2Input] c2St0 with
  | .ok st => st
  | .error _ => ⟨.vundef, .vundef⟩

theorem C2_original_invariance_amended_witness :
    original c2St1 = c2St0.data ∧
      c2St1.data = .vobj [("a", .vobj [("x", .vnum 5)])] ∧
      c2St0.data = .vobj [("a", .vobj [("x", .vnum 1)])] :=
  ⟨C2_original_invariance_amended c2PlainSpec [c2Input] c2St0 c2St1 rfl rfl rfl rfl, rfl, rfl⟩
